import Mathlib

/-!
Verification development for the Youtube-Shorts-Cutter analysis pipeline.

The numeric model uses `ℚ` for the JavaScript `number` values that the
pipeline manipulates (times in milliseconds/seconds, intensities, scores);
`Math.round` is modelled by `jround x = ⌊x + 1/2⌋` (JavaScript rounds
half-way cases up).  Times, durations and intensities that appear in the
analysed fragments are plain arithmetic, so the rational model is exact,
except for `Math.sqrt` in the virality scorer, which is treated separately
(see `sqrtRound` below and the lemma relating it to `Real.sqrt`).

Sources embedded here:
 * `findPeakSegments` and its helpers  (server/youtube.ts, src/unnamed/part_005)
 * `optimizeSegments`, `applyOptimizations`, `getEnergyAt`,
   `findHookCandidates`, `findEnergyDrop`  (boundary optimizer, part_005)
 * `combineSignals`, `resampleToGrid`, `smoothHeatmap`  (signal combiner)
 * the `methodsUsed` post-processing of the `/api/analyze` handler (part_007)
 * `scoreSegments`  (virality scorer, part_008)
 * the timestamp-parsing / bucketing core of `scrapeCommentTimestamps`
   (comment probe, part_006)
-/

namespace YSC

/-- JavaScript `Math.round`: round to the nearest integer, half-way cases
towards positive infinity. -/
def jround (x : ℚ) : ℤ := ⌊x + 1/2⌋

/-- Source helper `round1`: `Math.round(n * 10) / 10`. -/
def round1 (n : ℚ) : ℚ := (jround (n * 10) : ℚ) / 10

/-- Source helper `round3`: `Math.round(n * 1000) / 1000`. -/
def round3 (n : ℚ) : ℚ := (jround (n * 1000) : ℚ) / 1000

/-- `HeatmapPoint` of `src/types/index.ts`. -/
structure HeatmapPoint where
  startMs : ℚ
  endMs : ℚ
  intensity : ℚ
deriving DecidableEq

instance : Inhabited HeatmapPoint := ⟨⟨0, 0, 0⟩⟩

/-- `PeakSegment` of `src/types/index.ts`.  The `id` field (a freshly minted
uuid string, not involved in any analysed property) is omitted. -/
structure PeakSegment where
  startS : ℚ
  endS : ℚ
  durationS : ℚ
  avgIntensity : ℚ
  peakIntensity : ℚ
deriving DecidableEq

instance : Inhabited PeakSegment := ⟨⟨0, 0, 0, 0, 0⟩⟩

/-- `PeakOptions` of `findPeakSegments`, with all optional fields resolved
(the defaults are `topN = 5, minDurationS = 15, maxDurationS = 60,
minGapS = 30, intensityThreshold = 0.6`). -/
structure PeakOptions where
  topN : ℕ
  minDurationS : ℚ
  maxDurationS : ℚ
  minGapS : ℚ
  intensityThreshold : ℚ
deriving DecidableEq

/-- The source defaults for `PeakOptions`. -/
def defaultPeakOptions : PeakOptions := ⟨5, 15, 60, 30, 3/5⟩

/-- The adaptive-threshold loop of `findPeakSegments` step 1:
`while (hotMarkers.length < 5 && threshold > 0.2) threshold -= 0.1`,
where `hotMarkers = heatmap.filter(m => m.intensity >= threshold)`.
Returns the final working threshold. -/
def adaptThreshold (heatmap : List HeatmapPoint) (t : ℚ) : ℚ :=
  if h : (heatmap.filter (fun m => t ≤ m.intensity)).length < 5 ∧ 1/5 < t then
    adaptThreshold heatmap (t - 1/10)
  else t
termination_by (⌈10 * t - 2⌉).toNat
decreasing_by
  have hpos : (0 : ℤ) < ⌈10 * t - 2⌉ := Int.ceil_pos.mpr (by linarith [h.2])
  have hstep : 10 * (t - 1/10) - 2 = (10 * t - 2) - 1 := by ring
  rw [hstep, Int.ceil_sub_one]
  omega

/-- The markers surviving a threshold:
`heatmap.filter(m => m.intensity >= threshold)`. -/
def hotMarkers (heatmap : List HeatmapPoint) (t : ℚ) : List HeatmapPoint :=
  heatmap.filter (fun m => t ≤ m.intensity)

/-- `RawZone` (internal to `findPeakSegments` step 2). -/
structure RawZone where
  startMs : ℚ
  endMs : ℚ
  intensities : List ℚ
  peakIntensity : ℚ
  peakTimeMs : ℚ
deriving DecidableEq

/-- The zone seeded from a single marker. -/
def initZone (m : HeatmapPoint) : RawZone :=
  ⟨m.startMs, m.endMs, [m.intensity], m.intensity, m.startMs⟩

/-- Extending the current zone with a marker within a 3 s gap
(`findPeakSegments` step 2, `gap <= 3000` branch). -/
def extendZone (z : RawZone) (m : HeatmapPoint) : RawZone :=
  { z with
    endMs := max z.endMs m.endMs
    intensities := z.intensities ++ [m.intensity]
    peakIntensity := if z.peakIntensity < m.intensity then m.intensity else z.peakIntensity
    peakTimeMs := if z.peakIntensity < m.intensity then m.startMs else z.peakTimeMs }

/-- One iteration of the zone-merging loop over the time-sorted markers. -/
def zoneStep (acc : List RawZone × RawZone) (m : HeatmapPoint) : List RawZone × RawZone :=
  if m.startMs - acc.2.endMs ≤ 3000 then (acc.1, extendZone acc.2 m)
  else (acc.1 ++ [acc.2], initZone m)

/-- `findPeakSegments` step 2: merge time-sorted markers into raw zones,
allowing gaps of at most 3000 ms inside a zone. -/
def buildZones : List HeatmapPoint → List RawZone
  | [] => []
  | m :: rest =>
      let acc := rest.foldl zoneStep ([], initZone m)
      acc.1 ++ [acc.2]

/-- `Candidate` (internal to `findPeakSegments` step 3). -/
structure Candidate where
  startS : ℚ
  endS : ℚ
  durationS : ℚ
  avgIntensity : ℚ
  peakIntensity : ℚ
  peakTimeS : ℚ
  score : ℚ
deriving DecidableEq

/-- The "expand short segments, centering around peak" stage of
`findPeakSegments` step 3, on the (start, end) pair in seconds. -/
def expandSeg (videoDurationS minDurationS peakTimeS : ℚ) (se : ℚ × ℚ) : ℚ × ℚ :=
  if se.2 - se.1 < minDurationS then
    let halfNeeded := minDurationS / 2
    let s := max 0 (peakTimeS - halfNeeded)
    let e := min videoDurationS (peakTimeS + halfNeeded)
    if e - s < minDurationS then
      if s = 0 then (s, min videoDurationS minDurationS)
      else (max 0 (e - minDurationS), e)
    else (s, e)
  else se

/-- The "trim long segments, keeping peak centered" stage of
`findPeakSegments` step 3. -/
def trimSeg (videoDurationS maxDurationS peakTimeS : ℚ) (se : ℚ × ℚ) : ℚ × ℚ :=
  if maxDurationS < se.2 - se.1 then
    let halfMax := maxDurationS / 2
    let s := max 0 (peakTimeS - halfMax)
    let e := min videoDurationS (peakTimeS + halfMax)
    if e - s < maxDurationS ∧ s = 0 then (s, min videoDurationS maxDurationS)
    else if e - s < maxDurationS then (max 0 (e - maxDurationS), e)
    else (s, e)
  else se

/-- `findPeakSegments` step 3: convert a zone into a duration-constrained
candidate centered on the peak moment (expand, then trim, then round). -/
def sizeCandidate (videoDurationS minDurationS maxDurationS : ℚ) (zone : RawZone) :
    Candidate :=
  let startS0 := zone.startMs / 1000
  let endS0 := zone.endMs / 1000
  let peakTimeS := zone.peakTimeMs / 1000
  let avgIntensity := zone.intensities.sum / (zone.intensities.length : ℚ)
  let se2 := trimSeg videoDurationS maxDurationS peakTimeS
    (expandSeg videoDurationS minDurationS peakTimeS (startS0, endS0))
  { startS := round1 se2.1
    endS := round1 se2.2
    durationS := round1 (se2.2 - se2.1)
    avgIntensity := round3 avgIntensity
    peakIntensity := round3 zone.peakIntensity
    peakTimeS := peakTimeS
    score := 0 }

/-- `findPeakSegments` step 4: composite score
`avgIntensity * 1.0 + peakIntensity * 0.3 + min(durationS / maxDurationS, 1) * 0.1`. -/
def scoreCandidate (maxDurationS : ℚ) (c : Candidate) : Candidate :=
  { c with score :=
      c.avgIntensity * 1 + c.peakIntensity * (3/10) +
        min (c.durationS / maxDurationS) 1 * (1/10) }

/-- The conflict test of `findPeakSegments` step 5: a candidate conflicts
with the selection when, for some already-selected segment,
`max(candidate.startS - sel.endS, sel.startS - candidate.endS) < gap`. -/
def hasConflict (gapReq : ℚ) (selected : List Candidate) (c : Candidate) : Bool :=
  selected.any (fun e => max (c.startS - e.endS) (e.startS - c.endS) < gapReq)

/-- `findPeakSegments` step 5: greedy selection in score order under the
strict gap, stopping once `topN` segments are selected. -/
def strictSelect (topN : ℕ) (gapReq : ℚ) (selected : List Candidate) :
    List Candidate → List Candidate
  | [] => selected
  | c :: rest =>
      if topN ≤ selected.length then selected
      else if hasConflict gapReq selected c then strictSelect topN gapReq selected rest
      else strictSelect topN gapReq (selected ++ [c]) rest

/-- `findPeakSegments` step 5, relaxation pass: a second sweep with the
relaxed gap that skips candidates already selected.  (JavaScript
`selected.includes` is reference equality on candidate objects; candidates
are modelled as values, which coincides for the traces of this pipeline
because a value-duplicate of a selected candidate is always rejected by the
conflict test as well.) -/
def relaxedSelect (topN : ℕ) (gapReq : ℚ) (selected : List Candidate) :
    List Candidate → List Candidate
  | [] => selected
  | c :: rest =>
      if topN ≤ selected.length then selected
      else if c ∈ selected then relaxedSelect topN gapReq selected rest
      else if hasConflict gapReq selected c then relaxedSelect topN gapReq selected rest
      else relaxedSelect topN gapReq (selected ++ [c]) rest

/-- Steps 1-4 of `findPeakSegments`: working threshold, time-sorted
markers, zones, sized candidates, scored and sorted by score descending
(JavaScript `Array.prototype.sort` is stable; `List.insertionSort` with a
non-strict relation is the matching stable sort). -/
def rankedCandidates (heatmap : List HeatmapPoint) (videoDurationS : ℚ)
    (opts : PeakOptions) : List Candidate :=
  let threshold := adaptThreshold heatmap opts.intensityThreshold
  let hot := hotMarkers heatmap threshold
  let hotSorted := hot.insertionSort (fun a b => a.startMs ≤ b.startMs)
  let zones := buildZones hotSorted
  let cands := zones.map (sizeCandidate videoDurationS opts.minDurationS opts.maxDurationS)
  let scored := cands.map (scoreCandidate opts.maxDurationS)
  scored.insertionSort (fun a b => b.score ≤ a.score)

/-- Step 5 of `findPeakSegments`: the strict pass followed, when fewer than
`topN` were selected and candidates remain, by the relaxed pass with gap
`max(minGapS / 2, 10)`. -/
def selectedCandidates (heatmap : List HeatmapPoint) (videoDurationS : ℚ)
    (opts : PeakOptions) : List Candidate :=
  let ranked := rankedCandidates heatmap videoDurationS opts
  let sel := strictSelect opts.topN opts.minGapS [] ranked
  if sel.length < opts.topN ∧ sel.length < ranked.length then
    relaxedSelect opts.topN (max (opts.minGapS / 2) 10) sel ranked
  else sel

/-- Step 6: forget the selection bookkeeping (the source also mints a uuid
`id` here, not modelled). -/
def toSegment (c : Candidate) : PeakSegment :=
  ⟨c.startS, c.endS, c.durationS, c.avgIntensity, c.peakIntensity⟩

/-- `findPeakSegments` (part_005): the peak segment detector. -/
def findPeakSegments (heatmap : List HeatmapPoint) (videoDurationS : ℚ)
    (opts : PeakOptions) : List PeakSegment :=
  if heatmap.isEmpty then []
  else
    let threshold := adaptThreshold heatmap opts.intensityThreshold
    if (hotMarkers heatmap threshold).isEmpty then []
    else
      ((selectedCandidates heatmap videoDurationS opts).insertionSort
        (fun a b => a.startS ≤ b.startS)).map toSegment

/-! ### Boundary optimizer (part_005, second module) -/

/-- A silence region of the `BoundaryContext`. -/
structure SilenceRegion where
  startS : ℚ
  endS : ℚ
deriving DecidableEq

/-- How the optimizer arrived at the chosen start ("original",
"sentence_start" or "energy_peak" in the source). -/
inductive BoundaryType where
  | original
  | sentence_start
  | energy_peak
deriving DecidableEq

/-- `OptimizedSegment` of the boundary optimizer. -/
structure OptimizedSegment where
  original : PeakSegment
  optimizedStartS : ℚ
  optimizedEndS : ℚ
  hookScore : ℤ
  hookShiftS : ℚ
  boundaryType : BoundaryType
deriving DecidableEq

/-- `getEnergyAt`: mean intensity of the heatmap points whose start lies in
`[startS, endS)`, defaulting to 0.5 when no point does. -/
def getEnergyAt (heatmap : List HeatmapPoint) (startS endS : ℚ) : ℚ :=
  let points := heatmap.filter (fun p => startS ≤ p.startMs / 1000 ∧ p.startMs / 1000 < endS)
  if points.isEmpty then 1/2
  else (points.map (fun p => p.intensity)).sum / (points.length : ℚ)

/-- A hook candidate: a time and its blended energy. -/
structure HookCandidate where
  timeS : ℚ
  energy : ℚ
deriving DecidableEq

/-- `findHookCandidates`: heatmap points inside the search window with
intensity above 0.5, scored by the mean of the point intensity and the
energy of the following 3 seconds, sorted by energy descending, first 5. -/
def findHookCandidates (heatmap : List HeatmapPoint) (searchMinS searchMaxS : ℚ) :
    List HookCandidate :=
  let candidates := heatmap.filterMap (fun p =>
    let pS := p.startMs / 1000
    if searchMinS ≤ pS ∧ pS ≤ searchMaxS ∧ 1/2 < p.intensity then
      some ⟨pS, (p.intensity + getEnergyAt heatmap pS (pS + 3)) / 2⟩
    else none)
  (candidates.insertionSort (fun a b => b.energy ≤ a.energy)).take 5

/-- The scan of `findEnergyDrop`, carrying the previous intensity
(initially 1): the first point inside the window whose intensity falls
below half of the previous one while the previous one exceeds 0.4. -/
def energyDropScan (searchMinS searchMaxS : ℚ) :
    List HeatmapPoint → ℚ → Option ℚ
  | [], _ => none
  | p :: rest, prevEnergy =>
      let pS := p.startMs / 1000
      if pS < searchMinS then energyDropScan searchMinS searchMaxS rest p.intensity
      else if searchMaxS < pS then none
      else if 2/5 < prevEnergy ∧ p.intensity < prevEnergy * (1/2) then some pS
      else energyDropScan searchMinS searchMaxS rest p.intensity

/-- `findEnergyDrop` of the boundary optimizer. -/
def findEnergyDrop (heatmap : List HeatmapPoint) (searchMinS searchMaxS : ℚ) : Option ℚ :=
  energyDropScan searchMinS searchMaxS heatmap 1

/-- State of the best-start search: chosen start, its score, its kind. -/
structure StartChoice where
  bestStart : ℚ
  bestStartScore : ℚ
  boundaryType : BoundaryType

/-- Option 1 of the start search: snap to the end of a silence region
inside the window (score `energy * 100 + 20`). -/
def silenceStartStep (heatmap : List HeatmapPoint) (startSearchMin startSearchMax : ℚ)
    (st : StartChoice) (s : SilenceRegion) : StartChoice :=
  if startSearchMin ≤ s.endS ∧ s.endS ≤ startSearchMax then
    let hookEnergy := getEnergyAt heatmap s.endS (s.endS + 3)
    let score := hookEnergy * 100 + 20
    if st.bestStartScore < score then ⟨s.endS, score, BoundaryType.sentence_start⟩ else st
  else st

/-- Option 2 of the start search: a nearby high-energy moment
(score `energy * 100 + 10`). -/
def hookStartStep (st : StartChoice) (hook : HookCandidate) : StartChoice :=
  let score := hook.energy * 100 + 10
  if st.bestStartScore < score then ⟨hook.timeS, score, BoundaryType.energy_peak⟩ else st

/-- The per-segment body of `optimizeSegments`. -/
def optimizeSegment (heatmap : List HeatmapPoint) (silences : List SilenceRegion)
    (videoDurationS targetMinS targetMaxS : ℚ) (seg : PeakSegment) : OptimizedSegment :=
  -- Find best START point
  let startSearchMin := max 0 (seg.startS - 5)
  let startSearchMax := seg.startS + 2
  let st0 : StartChoice := ⟨seg.startS, 0, BoundaryType.original⟩
  let st1 := silences.foldl (silenceStartStep heatmap startSearchMin startSearchMax) st0
  let hookCandidates := findHookCandidates heatmap startSearchMin startSearchMax
  let st2 := hookCandidates.foldl hookStartStep st1
  let bestStart := st2.bestStart
  -- Find best END point
  let endSearchMin := max (bestStart + targetMinS) (seg.endS - 3)
  let endSearchMax := min (bestStart + targetMaxS) videoDurationS
  let bestEnd1 :=
    match silences.find? (fun s =>
      endSearchMin ≤ s.startS ∧ s.startS ≤ endSearchMax ∧
        targetMinS ≤ s.startS - bestStart ∧ s.startS - bestStart ≤ targetMaxS) with
    | some s => s.startS
    | none => seg.endS
  let bestEnd2 :=
    if bestEnd1 = seg.endS then
      match findEnergyDrop heatmap endSearchMin endSearchMax with
      | some dropPoint => if targetMinS ≤ dropPoint - bestStart then dropPoint else bestEnd1
      | none => bestEnd1
    else bestEnd1
  -- Ensure duration constraints (the source tests the duration computed
  -- before either clamp in both branches)
  let duration := bestEnd2 - bestStart
  let bestEnd3 := if duration < targetMinS then min (bestStart + targetMinS) videoDurationS
    else bestEnd2
  let bestEnd4 := if targetMaxS < duration then bestStart + targetMaxS else bestEnd3
  -- Score the hook
  let hookEnergy := getEnergyAt heatmap bestStart (bestStart + 3)
  { original := seg
    optimizedStartS := round1 bestStart
    optimizedEndS := round1 bestEnd4
    hookScore := jround (hookEnergy * 100)
    hookShiftS := (jround ((bestStart - seg.startS) * 10) : ℚ) / 10
    boundaryType := st2.boundaryType }

/-- `optimizeSegments` (part_005): optimize every segment's boundaries
against the heatmap and the silence regions of the boundary context. -/
def optimizeSegments (segments : List PeakSegment) (heatmap : List HeatmapPoint)
    (silences : List SilenceRegion) (videoDurationS targetMinS targetMaxS : ℚ) :
    List OptimizedSegment :=
  segments.map (optimizeSegment heatmap silences videoDurationS targetMinS targetMaxS)

/-- `applyOptimizations` (part_005): write the optimized boundaries back
into the segments. -/
def applyOptimizations (optimized : List OptimizedSegment) : List PeakSegment :=
  optimized.map (fun o =>
    { o.original with
      startS := o.optimizedStartS
      endS := o.optimizedEndS
      durationS := round1 (o.optimizedEndS - o.optimizedStartS) })

/-! ### Signal combiner (client signalCombiner module) -/

/-- `DetectionMethod` of `src/types/index.ts`. -/
inductive DetectionMethod where
  | heatmap
  | audio
  | scene
  | comments
  | combined
deriving DecidableEq

/-- `SignalSource` of the signal combiner. -/
structure SignalSource where
  method : DetectionMethod
  label : String
  weight : ℚ
  points : List HeatmapPoint

instance : Inhabited SignalSource := ⟨⟨DetectionMethod.heatmap, "", 0, []⟩⟩

/-- `Math.max(...l)` over a non-empty list (the empty case, `-Infinity` in
JavaScript, is never reached on the analysed paths; it is given a default). -/
def listMax (d : ℚ) : List ℚ → ℚ
  | [] => d
  | x :: xs => xs.foldl max x

/-- `Math.min(...l)` over a non-empty list, with a default for `[]`. -/
def listMin (d : ℚ) : List ℚ → ℚ
  | [] => d
  | x :: xs => xs.foldl min x

/-- The raw (un-normalized) value of grid bucket `i` in `resampleToGrid`:
the maximum intensity over the source points overlapping the bucket
(`startBucket = ⌊startMs / bucketSize⌋`, `endBucket = min ⌈endMs / bucketSize⌉ numBuckets`). -/
def resampleRawAt (points : List HeatmapPoint) (numBuckets : ℕ) (totalDurationMs : ℚ)
    (i : ℕ) : ℚ :=
  let bucketSizeMs := totalDurationMs / (numBuckets : ℚ)
  points.foldl (fun acc p =>
    if ⌊p.startMs / bucketSizeMs⌋ ≤ (i : ℤ) ∧
        (i : ℤ) < min ⌈p.endMs / bucketSizeMs⌉ (numBuckets : ℤ) then
      max acc p.intensity
    else acc) 0

/-- `resampleToGrid`: resample a signal to a uniform grid and normalize
that signal to 0..1 (division happens only when the maximum is positive). -/
def resampleToGrid (points : List HeatmapPoint) (numBuckets : ℕ) (totalDurationMs : ℚ) :
    List ℚ :=
  let raw := (List.range numBuckets).map (resampleRawAt points numBuckets totalDurationMs)
  let mx := listMax 0 raw
  if 0 < mx then raw.map (fun v => v / mx) else raw

/-- The accumulated weighted grid of `combineSignals`:
`grid[i] += resampled[i] * weight` over the active sources. -/
def combinedGridAt (active : List SignalSource) (numBuckets : ℕ) (totalDurationMs : ℚ)
    (i : ℕ) : ℚ :=
  active.foldl (fun acc s =>
    acc + ((resampleToGrid s.points numBuckets totalDurationMs).getD i 0) * s.weight) 0

/-- The result record of `combineSignals`. -/
structure CombineResult where
  combined : List HeatmapPoint
  methodsUsed : List DetectionMethod
deriving DecidableEq

/-- `combineSignals` (client signalCombiner): drop empty sources, return a
single source unchanged, otherwise blend all sources on a uniform grid of
`ceil(durationMs / windowSizeMs)` buckets and min-max normalize. -/
def combineSignals (sources : List SignalSource) (videoDurationS windowSizeMs : ℚ) :
    CombineResult :=
  let activeSources := sources.filter (fun s => ¬ s.points.isEmpty)
  if activeSources.length = 0 then ⟨[], []⟩
  else if activeSources.length = 1 then
    ⟨(activeSources.headI).points, [(activeSources.headI).method]⟩
  else
    let numBuckets := (⌈videoDurationS * 1000 / windowSizeMs⌉).toNat
    let grid := (List.range numBuckets).map
      (combinedGridAt activeSources numBuckets (videoDurationS * 1000))
    let maxVal := listMax 0 grid
    let minVal := listMin 0 grid
    let range := if maxVal - minVal = 0 then 1 else maxVal - minVal
    let combined := (List.range numBuckets).map (fun (i : ℕ) =>
      { startMs := (i : ℚ) * windowSizeMs
        endMs := min (((i : ℚ) + 1) * windowSizeMs) (videoDurationS * 1000)
        intensity :=
          (combinedGridAt activeSources numBuckets (videoDurationS * 1000) i - minVal) /
            range : HeatmapPoint })
    ⟨combined, activeSources.map (fun s => s.method)⟩

/-- The `methodsUsed` post-processing of the `/api/analyze` handler
(part_007): after `combineSignals`, when more than one method contributed,
the sentinel `combined` is pushed onto the list. -/
def analyzeMethodsUsed (sources : List SignalSource) (videoDurationS : ℚ) :
    List DetectionMethod :=
  let r := combineSignals sources videoDurationS 2000
  if 1 < r.methodsUsed.length then r.methodsUsed ++ [DetectionMethod.combined]
  else r.methodsUsed

/-- The inner accumulation of `smoothHeatmap` at output index `i`: the sum
and count of the input intensities at indices `i - halfWindow .. i + halfWindow`
that are in range. -/
def smoothWindow (points : List HeatmapPoint) (halfWindow i : ℕ) : ℚ × ℚ :=
  (List.range (2 * halfWindow + 1)).foldl (fun acc (k : ℕ) =>
    let j : ℤ := (i : ℤ) - (halfWindow : ℤ) + (k : ℤ)
    if 0 ≤ j ∧ j < (points.length : ℤ) then
      (acc.1 + (points.getD j.toNat default).intensity, acc.2 + 1)
    else acc) (0, 0)

/-- `smoothHeatmap` (client signalCombiner): centered moving average with
window `windowSize` (via `halfWindow = ⌊windowSize / 2⌋`); only the
intensity changes. -/
def smoothHeatmap (points : List HeatmapPoint) (windowSize : ℕ) : List HeatmapPoint :=
  let halfWindow := windowSize / 2
  points.mapIdx (fun i point =>
    let sc := smoothWindow points halfWindow i
    { point with intensity := sc.1 / sc.2 })

/-! ### Virality scorer (part_008)

The only non-rational operation of the scorer is `Math.round(stdDev * 400)`
with `stdDev = Math.sqrt(variance)`.  `sqrtRound400` computes that integer
exactly from the rational variance using the integer square root; the
lemma `sqrtRound400_eq_round_sqrt` below proves it equal to
`⌊400·√variance + 1/2⌋` over the reals. -/

/-- The integer `Math.round(400 * Math.sqrt v)` for a rational `v ≥ 0`,
computed exactly: `round(400·√v) = n` iff `(2n-1)² ≤ 640000·v < (2n+1)²`,
and that `n` is `(Nat.sqrt ⌊640000·v⌋ + 1) / 2`. -/
def sqrtRound400 (v : ℚ) : ℤ :=
  ((Nat.sqrt (⌊v * 640000⌋).toNat + 1) / 2 : ℕ)

/-- `ViralityBreakdown` of part_008 (the purely cosmetic `label` and
`color` fields are kept as well). -/
structure ViralityBreakdown where
  overall : ℤ
  peakIntensity : ℤ
  hookStrength : ℤ
  pacing : ℤ
  audioEnergy : ℤ
  positionBonus : ℤ
  durationFit : ℤ
  label : String
  color : String
deriving DecidableEq

/-- Sub-score 1 of part_008: peak intensity, `Math.round(seg.peakIntensity * 100)`. -/
def peakScoreZ (seg : PeakSegment) : ℤ := jround (seg.peakIntensity * 100)

/-- The heatmap points overlapping the 3-second hook window of a segment
(part_008, `hookPoints`). -/
def hookPoints (heatmap : List HeatmapPoint) (seg : PeakSegment) : List HeatmapPoint :=
  heatmap.filter (fun p =>
    p.startMs / 1000 < seg.startS + 3 ∧ seg.startS < p.endMs / 1000)

/-- Sub-score 2 of part_008: hook strength. -/
def hookScoreZ (heatmap : List HeatmapPoint) (seg : PeakSegment) : ℤ :=
  let pts := hookPoints heatmap seg
  if ¬ pts.isEmpty then
    let avgHookIntensity := (pts.map (fun p => p.intensity)).sum / (pts.length : ℚ)
    let hookBonus : ℚ := if seg.avgIntensity < avgHookIntensity then 15 else 0
    min 100 (jround (avgHookIntensity * 85 + hookBonus))
  else jround (seg.avgIntensity * 50)

/-- The heatmap points whose start falls inside a segment (part_008,
`segPoints`). -/
def segPoints (heatmap : List HeatmapPoint) (seg : PeakSegment) : List HeatmapPoint :=
  heatmap.filter (fun p =>
    seg.startS ≤ p.startMs / 1000 ∧ p.startMs / 1000 ≤ seg.endS)

/-- Sub-score 3 of part_008: pacing from the intensity standard deviation. -/
def pacingScoreZ (heatmap : List HeatmapPoint) (seg : PeakSegment) : ℤ :=
  let pts := segPoints heatmap seg
  if 3 ≤ pts.length then
    let mean := (pts.map (fun p => p.intensity)).sum / (pts.length : ℚ)
    let variance :=
      (pts.map (fun p => (p.intensity - mean) ^ 2)).sum / (pts.length : ℚ)
    min 100 (sqrtRound400 variance)
  else 50

/-- Sub-score 4 of part_008: audio energy, `Math.round(seg.avgIntensity * 100)`. -/
def audioScoreZ (seg : PeakSegment) : ℤ := jround (seg.avgIntensity * 100)

/-- Sub-score 5 of part_008: position bonus from the relative position. -/
def positionScoreZ (videoDurationS : ℚ) (seg : PeakSegment) : ℤ :=
  let relativePosition := seg.startS / videoDurationS
  if relativePosition < 33/100 then
    80 + jround ((1 - relativePosition / (33/100)) * 20)
  else if relativePosition < 66/100 then
    50 + jround ((1 - (relativePosition - 33/100) / (33/100)) * 30)
  else
    30 + jround ((1 - (relativePosition - 66/100) / (34/100)) * 20)

/-- Sub-score 6 of part_008: duration fit. -/
def durationScoreZ (seg : PeakSegment) : ℤ :=
  let dur := seg.durationS
  if 30 ≤ dur ∧ dur ≤ 45 then 100
  else if 20 ≤ dur ∧ dur < 30 then 70 + jround ((dur - 20) / 10 * 30)
  else if 45 < dur ∧ dur ≤ 60 then 70 + jround ((60 - dur) / 15 * 30)
  else if 15 ≤ dur ∧ dur < 20 then 50
  else 30

/-- The weighted overall score of part_008. -/
def overallScoreZ (heatmap : List HeatmapPoint) (videoDurationS : ℚ)
    (seg : PeakSegment) : ℤ :=
  jround ((peakScoreZ seg : ℚ) * (30/100) + (hookScoreZ heatmap seg : ℚ) * (25/100) +
    (pacingScoreZ heatmap seg : ℚ) * (15/100) + (audioScoreZ seg : ℚ) * (15/100) +
    (positionScoreZ videoDurationS seg : ℚ) * (10/100) +
    (durationScoreZ seg : ℚ) * (5/100))

/-- The label/color pair assigned from the overall score (part_008). -/
def labelColor (overall : ℤ) : String × String :=
  if 80 ≤ overall then ("Viral", "#ef4444")
  else if 60 ≤ overall then ("Strong", "#22c55e")
  else if 40 ≤ overall then ("Good", "#f59e0b")
  else ("Fair", "#6b7280")

/-- The per-segment body of `scoreSegments` (part_008), assembled from the
named sub-score stages above. -/
def scoreSegment (heatmap : List HeatmapPoint) (videoDurationS : ℚ)
    (seg : PeakSegment) : ViralityBreakdown :=
  { overall := overallScoreZ heatmap videoDurationS seg
    peakIntensity := peakScoreZ seg
    hookStrength := hookScoreZ heatmap seg
    pacing := pacingScoreZ heatmap seg
    audioEnergy := audioScoreZ seg
    positionBonus := positionScoreZ videoDurationS seg
    durationFit := durationScoreZ seg
    label := (labelColor (overallScoreZ heatmap videoDurationS seg)).1
    color := (labelColor (overallScoreZ heatmap videoDurationS seg)).2 }

/-- `scoreSegments` (part_008). -/
def scoreSegments (segments : List PeakSegment) (heatmap : List HeatmapPoint)
    (videoDurationS : ℚ) : List ViralityBreakdown :=
  if segments.isEmpty then []
  else segments.map (scoreSegment heatmap videoDurationS)

/-! ### Comment probe: timestamp parsing and bucketing (part_006)

The probe extracts tokens of the regular expression
`\b(\d{1,2}):(\d{2})(?::(\d{2}))?\b` from each comment with a global
`exec` loop.  The scanner below implements exactly those semantics on
`List Char`: a word boundary before the first digit, a greedy 1-2 digit
first group (two digits preferred, backtracking to one), a 2-digit second
group, a greedy optional `:`+2-digit third group (backtracking to the
shorter match when the trailing boundary fails), and resumption after the
end of each match. -/

/-- The regex character class `\d`. -/
def isDigit (c : Char) : Bool := decide ('0' ≤ c ∧ c ≤ '9')

/-- The regex word-character class `\w` (for `\b`). -/
def isWordChar (c : Char) : Bool :=
  isDigit c || decide ('a' ≤ c ∧ c ≤ 'z') || decide ('A' ≤ c ∧ c ≤ 'Z') || decide (c = '_')

/-- Numeric value of a digit character. -/
def digitVal (c : Char) : ℕ := c.toNat - '0'.toNat

/-- Is there a word boundary immediately after the match, i.e. is the rest
of the input empty or starting with a non-word character? -/
def boundaryAfter : List Char → Bool
  | [] => true
  | c :: _ => ¬ isWordChar c

/-- Finish a match after group 1 (value `a`) and group 2 (value `b`) have
been consumed: greedily try the optional `( : \d\d )` third group followed
by `\b`, falling back to the two-group form followed by `\b`.  Returns the
parsed seconds, the last consumed character and the rest of the input. -/
def finishMatch (a b : ℕ) (lastChar : Char) (rest : List Char) :
    Option (ℕ × Char × List Char) :=
  match rest with
  | c0 :: c1 :: c2 :: rest2 =>
      if c0 = ':' ∧ isDigit c1 ∧ isDigit c2 ∧ boundaryAfter rest2 then
        some (a * 3600 + b * 60 + (10 * digitVal c1 + digitVal c2), c2, rest2)
      else if boundaryAfter rest then some (a * 60 + b, lastChar, rest) else none
  | _ => if boundaryAfter rest then some (a * 60 + b, lastChar, rest) else none

/-- Try to match the timestamp regex at the head of `s` (the position just
after a word boundary).  Group 1 is greedy: the two-digit reading is tried
first; when its mandatory `:` is missing the one-digit reading applies
(the backtracked `:` position then holds a digit, so it can only succeed
when the second character is not a digit). -/
def tryMatch (s : List Char) : Option (ℕ × Char × List Char) :=
  match s with
  | c1 :: c2 :: c3 :: d1 :: d2 :: rest3 =>
      if isDigit c1 ∧ isDigit c2 then
        -- group 1 = two digits; the next character must be ':'
        if c3 = ':' ∧ isDigit d1 ∧ isDigit d2 then
          finishMatch (10 * digitVal c1 + digitVal c2)
            (10 * digitVal d1 + digitVal d2) d2 rest3
        else none
      else if isDigit c1 ∧ c2 = ':' ∧ isDigit c3 ∧ isDigit d1 then
        -- group 1 = one digit; c2 must be ':'
        finishMatch (digitVal c1) (10 * digitVal c3 + digitVal d1) d1 (d2 :: rest3)
      else none
  | [c1, c2, c3, d1] =>
      -- a one-digit match needs exactly `d : d d`
      if isDigit c1 ∧ ¬ isDigit c2 ∧ c2 = ':' ∧ isDigit c3 ∧ isDigit d1 then
        finishMatch (digitVal c1) (10 * digitVal c3 + digitVal d1) d1 []
      else none
  | _ => none

/-- `finishMatch` never grows the input. -/
theorem finishMatch_rest_le {a b : ℕ} {lc : Char} {rest : List Char}
    {t : ℕ} {c : Char} {rest2 : List Char}
    (h : finishMatch a b lc rest = some (t, c, rest2)) :
    rest2.length ≤ rest.length := by
  rcases rest with _ | ⟨c0, _ | ⟨c1, _ | ⟨c2, rest2b⟩⟩⟩ <;>
    simp only [finishMatch] at h <;>
    (repeat' split at h) <;>
    (simp_all; try omega)

/-- A successful `tryMatch` consumes at least four characters. -/
theorem tryMatch_rest_lt {s : List Char} {t : ℕ} {c : Char} {rest : List Char}
    (h : tryMatch s = some (t, c, rest)) : rest.length < s.length := by
  rcases s with _ | ⟨c1, _ | ⟨c2, _ | ⟨c3, _ | ⟨d1, _ | ⟨d2, rest3⟩⟩⟩⟩⟩ <;>
    simp only [tryMatch] at h <;>
    (repeat' split at h)
  all_goals try simp_all
  all_goals {
    have := finishMatch_rest_le h
    try simp only [List.length_cons, List.length_nil] at this
    omega }

/-- The global `exec` loop: scan the text for successive matches, keeping
the character before the current position to decide `\b` (the first group
matches a digit, so a boundary before the match means the previous
character, when there is one, is not a word character). -/
def scanTimestamps (prev : Option Char) (s : List Char) : List ℕ :=
  match hs : s with
  | [] => []
  | c :: rest =>
      let boundary := match prev with
        | none => true
        | some p => ¬ isWordChar p
      if boundary then
        match hm : tryMatch s with
        | some (t, lastChar, rest2) =>
            have : rest2.length < s.length := tryMatch_rest_lt hm
            t :: scanTimestamps (some lastChar) rest2
        | none => scanTimestamps (some c) rest
      else scanTimestamps (some c) rest
termination_by s.length
decreasing_by
  all_goals simp_all

/-- All timestamp values (in seconds) parsed from one comment text. -/
def parseTimestamps (text : String) : List ℕ :=
  scanTimestamps none text.toList

/-- One insertion into the `mentionMap` (keyed by the window start, here
an association list in insertion order; the sample texts the source also
stores are dropped — they feed only the `timestamps` diagnostic list, not
the heatmap). -/
def bumpMention (m : List (ℕ × ℕ)) (w : ℕ) : List (ℕ × ℕ) :=
  if m.any (fun e => e.1 = w) then
    m.map (fun e => if e.1 = w then (e.1, e.2 + 1) else e)
  else m ++ [(w, 1)]

/-- The `mentionMap` built by the probe from the comments: every parsed
timestamp at most `videoDurationS + 5` is bucketed at
`⌊timeS / windowSizeS⌋ * windowSizeS`. -/
def mentionMapOf (comments : List String) (videoDurationS : ℚ) (windowSizeS : ℕ) :
    List (ℕ × ℕ) :=
  comments.foldl (fun m text =>
    (parseTimestamps text).foldl (fun m (t : ℕ) =>
      if (t : ℚ) ≤ videoDurationS + 5 then
        bumpMention m (t / windowSizeS * windowSizeS)
      else m) m) []

/-- The per-window counts array: entry `i` receives the counts of the map
entries whose clamped index `min(⌊timeS / windowSizeS⌋, numWindows - 1)`
equals `i` (the source skips negative indices; with `numWindows ≥ 1` the
clamped index is never negative). -/
def commentCountsAt (mentionMap : List (ℕ × ℕ)) (windowSizeS numWindows i : ℕ) : ℕ :=
  mentionMap.foldl (fun acc e =>
    if (0 : ℤ) ≤ min ((e.1 / windowSizeS : ℕ) : ℤ) ((numWindows : ℤ) - 1) ∧
        min ((e.1 / windowSizeS : ℕ) : ℤ) ((numWindows : ℤ) - 1) = (i : ℤ) then
      acc + e.2
    else acc) 0

/-- `Math.max(...counts)` clamped to ℕ (0 for the empty array, where the
JavaScript `-Infinity` makes the `maxCount === 0` guard false and the
subsequent `map` produce `[]` — the same empty heatmap this model
returns). -/
def maxCountOf (counts : List ℕ) : ℕ := counts.foldr max 0

/-- The heatmap produced by `scrapeCommentTimestamps` (part_006) from the
fetched comment texts: timestamp mentions bucketed per `windowSizeS`
seconds and normalized by the maximal count. -/
def commentHeatmap (comments : List String) (videoDurationS : ℚ) (windowSizeS : ℕ) :
    List HeatmapPoint :=
  let mentionMap := mentionMapOf comments videoDurationS windowSizeS
  if mentionMap.isEmpty then []
  else
    let numWindows := (⌈videoDurationS / (windowSizeS : ℚ)⌉).toNat
    let counts := (List.range numWindows).map
      (commentCountsAt mentionMap windowSizeS numWindows)
    let maxCount := maxCountOf counts
    if maxCount = 0 then []
    else
      (List.range numWindows).map (fun (i : ℕ) =>
        { startMs := (i : ℚ) * windowSizeS * 1000
          endMs := min (((i : ℚ) + 1) * windowSizeS * 1000) (videoDurationS * 1000)
          intensity := (commentCountsAt mentionMap windowSizeS numWindows i : ℚ) /
            (maxCount : ℚ) : HeatmapPoint })

/-! ### Concrete evaluation scenarios

`exHeatmap`/`exOpts`: a heatmap with two well-separated hot zones and a
late secondary spike at 9.5 s; used to trace the detector and the boundary
optimizer end to end.  `exHeatmap2`: a single short spike on a 10 s video
with the default options, exercising the expansion branch when
`minDurationS > videoDurationS`. -/

def exHeatmap : List HeatmapPoint :=
  [⟨0, 2000, 9/10⟩, ⟨2000, 4000, 9/10⟩, ⟨4000, 6000, 9/10⟩, ⟨6000, 8000, 9/10⟩,
   ⟨8000, 10000, 9/10⟩, ⟨9500, 9800, 19/20⟩, ⟨14000, 16000, 4/5⟩, ⟨16000, 18000, 4/5⟩,
   ⟨18000, 20000, 4/5⟩, ⟨20000, 22000, 4/5⟩, ⟨22000, 24000, 4/5⟩]

def exOpts : PeakOptions := ⟨2, 10, 12, 4, 3/5⟩

def exZoneA : RawZone := ⟨0, 10000, [9/10, 9/10, 9/10, 9/10, 9/10, 19/20], 19/20, 9500⟩

def exZoneB : RawZone := ⟨14000, 24000, [4/5, 4/5, 4/5, 4/5, 4/5], 4/5, 14000⟩

set_option maxRecDepth 8000

theorem exThreshold : adaptThreshold exHeatmap (3/5) = 3/5 := by
  rw [adaptThreshold]
  norm_num [exHeatmap, List.filter]

theorem exHot : hotMarkers exHeatmap (3/5) = exHeatmap := by
  norm_num [hotMarkers, exHeatmap, List.filter]

theorem exSortedMarkers :
    exHeatmap.insertionSort (fun a b => a.startMs ≤ b.startMs) = exHeatmap := by
  norm_num [exHeatmap, List.insertionSort, List.orderedInsert]

theorem exZones : buildZones exHeatmap = [exZoneA, exZoneB] := by
  norm_num [buildZones, zoneStep, initZone, extendZone, exHeatmap, exZoneA, exZoneB]

theorem exSegments : findPeakSegments exHeatmap 24 exOpts =
    [⟨0, 10, 10, 227/250, 19/20⟩, ⟨14, 24, 10, 4/5, 4/5⟩] := by
  have h1 : exOpts.intensityThreshold = 3/5 := rfl
  simp only [findPeakSegments, selectedCandidates, rankedCandidates, h1,
    exThreshold, exHot, exSortedMarkers, exZones]
  norm_num [exOpts, exZoneA, exZoneB, sizeCandidate, expandSeg, trimSeg, scoreCandidate,
    strictSelect, relaxedSelect, hasConflict, toSegment, round1, round3, jround,
    List.insertionSort, List.orderedInsert, List.any_cons, List.any_nil,
    Int.floor_eq_iff, exHeatmap]

theorem eAt0 : getEnergyAt exHeatmap 0 3 = 9/10 := by
  norm_num [getEnergyAt, exHeatmap, List.filter_cons, List.filter_nil,
    List.isEmpty_cons, List.isEmpty_nil]

theorem eAt2 : getEnergyAt exHeatmap 2 5 = 9/10 := by
  norm_num [getEnergyAt, exHeatmap, List.filter_cons, List.filter_nil,
    List.isEmpty_cons, List.isEmpty_nil]

theorem eAt95 : getEnergyAt exHeatmap (19/2) (25/2) = 19/20 := by
  norm_num [getEnergyAt, exHeatmap, List.filter_cons, List.filter_nil,
    List.isEmpty_cons, List.isEmpty_nil]

theorem eAt14 : getEnergyAt exHeatmap 14 17 = 4/5 := by
  norm_num [getEnergyAt, exHeatmap, List.filter_cons, List.filter_nil,
    List.isEmpty_cons, List.isEmpty_nil]

theorem eAt16 : getEnergyAt exHeatmap 16 19 = 4/5 := by
  norm_num [getEnergyAt, exHeatmap, List.filter_cons, List.filter_nil,
    List.isEmpty_cons, List.isEmpty_nil]

theorem exHooksA : findHookCandidates exHeatmap 0 2 = [⟨0, 9/10⟩, ⟨2, 9/10⟩] := by
  have hdef : exHeatmap =
      [⟨0, 2000, 9/10⟩, ⟨2000, 4000, 9/10⟩, ⟨4000, 6000, 9/10⟩, ⟨6000, 8000, 9/10⟩,
       ⟨8000, 10000, 9/10⟩, ⟨9500, 9800, 19/20⟩, ⟨14000, 16000, 4/5⟩, ⟨16000, 18000, 4/5⟩,
       ⟨18000, 20000, 4/5⟩, ⟨20000, 22000, 4/5⟩, ⟨22000, 24000, 4/5⟩] := rfl
  rw [findHookCandidates, hdef]
  norm_num [List.filterMap_cons, List.filterMap_nil]
  rw [← hdef]
  norm_num [eAt0, eAt2, List.insertionSort, List.orderedInsert, List.take]

theorem exHooksB : findHookCandidates exHeatmap 9 16 =
    [⟨19/2, 19/20⟩, ⟨14, 4/5⟩, ⟨16, 4/5⟩] := by
  have hdef : exHeatmap =
      [⟨0, 2000, 9/10⟩, ⟨2000, 4000, 9/10⟩, ⟨4000, 6000, 9/10⟩, ⟨6000, 8000, 9/10⟩,
       ⟨8000, 10000, 9/10⟩, ⟨9500, 9800, 19/20⟩, ⟨14000, 16000, 4/5⟩, ⟨16000, 18000, 4/5⟩,
       ⟨18000, 20000, 4/5⟩, ⟨20000, 22000, 4/5⟩, ⟨22000, 24000, 4/5⟩] := rfl
  rw [findHookCandidates, hdef]
  norm_num [List.filterMap_cons, List.filterMap_nil]
  rw [← hdef]
  norm_num [eAt95, eAt14, eAt16, List.insertionSort, List.orderedInsert, List.take]

theorem exDropA : findEnergyDrop exHeatmap 10 12 = none := by
  norm_num [findEnergyDrop, energyDropScan, exHeatmap]

theorem exDropB : findEnergyDrop exHeatmap 21 (43/2) = none := by
  norm_num [findEnergyDrop, energyDropScan, exHeatmap]

/-- The optimizer pulls the second segment's start to the 9.5 s energy
spike, across the first segment's end at 10 s. -/
theorem exOptimized :
    applyOptimizations (optimizeSegments
      [⟨0, 10, 10, 227/250, 19/20⟩, ⟨14, 24, 10, 4/5, 4/5⟩] exHeatmap [] 24 10 12) =
    [⟨0, 10, 10, 227/250, 19/20⟩, ⟨19/2, 43/2, 12, 4/5, 4/5⟩] := by
  norm_num [applyOptimizations, optimizeSegments, optimizeSegment,
    silenceStartStep, hookStartStep, exHooksA, exHooksB, exDropA, exDropB,
    eAt0, eAt95, round1, jround, List.find?, Int.floor_eq_iff]


def exHeatmap2 : List HeatmapPoint := [⟨0, 2000, 9/10⟩]

theorem exThreshold2 : adaptThreshold exHeatmap2 (3/5) = 1/5 := by
  rw [adaptThreshold]
  norm_num [exHeatmap2, List.filter]
  rw [adaptThreshold]
  norm_num [List.filter]
  rw [adaptThreshold]
  norm_num [List.filter]
  rw [adaptThreshold]
  norm_num [List.filter]
  rw [adaptThreshold]
  norm_num [List.filter]

theorem exSegments2 : findPeakSegments exHeatmap2 10 defaultPeakOptions =
    [⟨0, 10, 10, 9/10, 9/10⟩] := by
  have h1 : defaultPeakOptions.intensityThreshold = 3/5 := rfl
  simp only [findPeakSegments, selectedCandidates, rankedCandidates, h1, exThreshold2]
  norm_num [defaultPeakOptions, exHeatmap2, hotMarkers, List.filter,
    List.insertionSort, List.orderedInsert, buildZones, zoneStep, initZone,
    sizeCandidate, expandSeg, trimSeg, scoreCandidate, strictSelect, relaxedSelect, hasConflict,
    toSegment, round1, round3, jround, List.any_cons, List.any_nil, Int.floor_eq_iff]

theorem exOptimized2 :
    applyOptimizations (optimizeSegments [⟨0, 10, 10, 9/10, 9/10⟩] exHeatmap2 [] 10 15 60) =
    [⟨0, 10, 10, 9/10, 9/10⟩] := by
  norm_num [applyOptimizations, optimizeSegments, optimizeSegment,
    silenceStartStep, hookStartStep, findHookCandidates, getEnergyAt,
    findEnergyDrop, energyDropScan, exHeatmap2,
    List.filter_cons, List.filter_nil, List.isEmpty_cons, List.isEmpty_nil,
    List.filterMap_cons, List.filterMap_nil, List.insertionSort, List.orderedInsert,
    round1, jround, List.find?, Int.floor_eq_iff]


def exSources : List SignalSource :=
  [⟨DetectionMethod.audio, "Audio Energy", 1, [⟨0, 1000, 1⟩]⟩,
   ⟨DetectionMethod.comments, "Comment Timestamps", 1, [⟨0, 1000, 1⟩]⟩]

theorem exCombine : combineSignals exSources (3/2) 2000 =
    ⟨[⟨0, 1500, 0⟩], [DetectionMethod.audio, DetectionMethod.comments]⟩ := by
  have hc : (⌈(3:ℚ)/4⌉).toNat = 1 := by
    rw [show (⌈(3:ℚ)/4⌉) = 1 by rw [Int.ceil_eq_iff] ; norm_num]
    rfl
  norm_num [hc, combineSignals, exSources, combinedGridAt, resampleToGrid,
    resampleRawAt, listMax, listMin, List.filter_cons, List.filter_nil,
    List.isEmpty_cons, List.isEmpty_nil, List.range_succ, Int.ceil_eq_iff,
    List.headI, List.getD, List.get?, Int.floor_eq_iff]

theorem exSmooth : smoothHeatmap [⟨0, 1, 0⟩, ⟨1, 2, 0⟩, ⟨2, 3, 1⟩] 2 =
    [⟨0, 1, 0⟩, ⟨1, 2, 1/3⟩, ⟨2, 3, 1/2⟩] := by
  norm_num [smoothHeatmap, smoothWindow, List.mapIdx_cons, List.mapIdx_nil,
    List.range_succ, List.getD, List.get?, Int.toNat]

theorem exParse : parseTimestamps "0:05 nice" = [5] := by
  simp [parseTimestamps, scanTimestamps, tryMatch, finishMatch, boundaryAfter,
    isWordChar, isDigit, digitVal, String.toList]

theorem exCommentHeatmap : commentHeatmap ["0:05 nice"] 7 5 =
    [⟨0, 5000, 0⟩, ⟨5000, 7000, 1⟩] := by
  have hc : (⌈(7:ℚ)/5⌉).toNat = 2 := by
    rw [show (⌈(7:ℚ)/5⌉) = 2 by rw [Int.ceil_eq_iff] ; norm_num]
    rfl
  norm_num [commentHeatmap, mentionMapOf, exParse, bumpMention, commentCountsAt,
    maxCountOf, hc, List.isEmpty_cons, List.isEmpty_nil, List.range_succ,
    List.any_cons, List.any_nil]


/-! ### Rounding lemmas -/

theorem floor_half : (⌊(1:ℚ)/2⌋ : ℤ) = 0 := by
  rw [Int.floor_eq_iff] ; norm_num

theorem jround_le_of_le {x : ℚ} {n : ℤ} (h : x ≤ n) : jround x ≤ n := by
  have h1 : ⌊x + 1/2⌋ ≤ ⌊(n : ℚ) + 1/2⌋ :=
    Int.floor_le_floor (by linarith)
  have h2 : ⌊(n : ℚ) + 1/2⌋ = n := by
    rw [Int.floor_int_add, floor_half, add_zero]
  exact h2 ▸ h1

theorem le_jround_of_le {x : ℚ} {n : ℤ} (h : (n : ℚ) ≤ x) : n ≤ jround x := by
  calc n = ⌊(n : ℚ)⌋ := (Int.floor_intCast n).symm
    _ ≤ ⌊x + 1/2⌋ := Int.floor_le_floor (by linarith)

theorem round1_le (x : ℚ) : round1 x ≤ x + 1/20 := by
  unfold round1 jround
  have h := Int.floor_le (x * 10 + 1/2)
  rw [div_le_iff₀ (by norm_num : (0:ℚ) < 10)]
  linarith

theorem le_round1 (x : ℚ) : x - 1/20 ≤ round1 x := by
  unfold round1 jround
  have h := Int.lt_floor_add_one (x * 10 + 1/2)
  rw [le_div_iff₀ (by norm_num : (0:ℚ) < 10)]
  linarith

theorem round1_nonneg {x : ℚ} (h : 0 ≤ x) : 0 ≤ round1 x := by
  unfold round1 jround
  have h1 : (0:ℤ) ≤ ⌊x * 10 + 1/2⌋ := Int.floor_nonneg.mpr (by linarith)
  have h2 : (0:ℚ) ≤ (⌊x * 10 + 1/2⌋ : ℚ) := by exact_mod_cast h1
  linarith


/-! ### Greedy selection invariants -/

/-- The symmetric separation measure used by the conflict test. -/
def candGap (a b : Candidate) : ℚ :=
  max (b.startS - a.endS) (a.startS - b.endS)

theorem candGap_comm (a b : Candidate) : candGap a b = candGap b a :=
  max_comm _ _

theorem hasConflict_eq_false_iff {g : ℚ} {sel : List Candidate} {c : Candidate} :
    hasConflict g sel c = false ↔ ∀ e ∈ sel, g ≤ candGap e c := by
  simp only [hasConflict, List.any_eq_false, decide_eq_true_eq, not_lt, candGap]

theorem pairwise_gap_append {γ g : ℚ} {sel : List Candidate} {c : Candidate}
    (hγ : γ ≤ g) (hsel : sel.Pairwise (fun a b => γ ≤ candGap a b))
    (hc : hasConflict g sel c = false) :
    (sel ++ [c]).Pairwise (fun a b => γ ≤ candGap a b) := by
  rw [List.pairwise_append]
  refine ⟨hsel, by simp, ?_⟩
  intro a ha b hb
  have hb2 : b = c := List.mem_singleton.mp hb
  have h1 := hasConflict_eq_false_iff.mp hc a ha
  rw [hb2]
  calc γ ≤ g := hγ
    _ ≤ candGap a c := h1

/-- The strict pass preserves pairwise separation by any `γ ≤ gapReq`. -/
theorem strictSelect_pairwise {topN : ℕ} {g γ : ℚ} (hγ : γ ≤ g) :
    ∀ (rest : List Candidate) (sel : List Candidate),
      sel.Pairwise (fun a b => γ ≤ candGap a b) →
      (strictSelect topN g sel rest).Pairwise (fun a b => γ ≤ candGap a b) := by
  intro rest
  induction rest with
  | nil => intro sel hsel; simpa [strictSelect] using hsel
  | cons c rest ih =>
      intro sel hsel
      rw [strictSelect]
      by_cases hlen : topN ≤ sel.length
      · rw [if_pos hlen]; exact hsel
      · rw [if_neg hlen]
        by_cases hc : hasConflict g sel c = true
        · rw [if_pos hc]; exact ih sel hsel
        · rw [if_neg hc]
          exact ih (sel ++ [c])
            (pairwise_gap_append hγ hsel (by simpa using hc))

/-- The relaxed pass preserves pairwise separation by any `γ ≤ gapReq`. -/
theorem relaxedSelect_pairwise {topN : ℕ} {g γ : ℚ} (hγ : γ ≤ g) :
    ∀ (rest : List Candidate) (sel : List Candidate),
      sel.Pairwise (fun a b => γ ≤ candGap a b) →
      (relaxedSelect topN g sel rest).Pairwise (fun a b => γ ≤ candGap a b) := by
  intro rest
  induction rest with
  | nil => intro sel hsel; simpa [relaxedSelect] using hsel
  | cons c rest ih =>
      intro sel hsel
      rw [relaxedSelect]
      by_cases hlen : topN ≤ sel.length
      · rw [if_pos hlen]; exact hsel
      · rw [if_neg hlen]
        by_cases hmem : c ∈ sel
        · rw [if_pos hmem]; exact ih sel hsel
        · rw [if_neg hmem]
          by_cases hc : hasConflict g sel c = true
          · rw [if_pos hc]; exact ih sel hsel
          · rw [if_neg hc]
            exact ih (sel ++ [c])
              (pairwise_gap_append hγ hsel (by simpa using hc))

/-- Everything the strict pass returns is an initial selection element or a
remaining candidate. -/
theorem strictSelect_mem {topN : ℕ} {g : ℚ} :
    ∀ (rest sel : List Candidate) (x : Candidate),
      x ∈ strictSelect topN g sel rest → x ∈ sel ∨ x ∈ rest := by
  intro rest
  induction rest with
  | nil => intro sel x hx; simp only [strictSelect] at hx; exact Or.inl hx
  | cons c rest ih =>
      intro sel x hx
      rw [strictSelect] at hx
      by_cases hlen : topN ≤ sel.length
      · rw [if_pos hlen] at hx; exact Or.inl hx
      · rw [if_neg hlen] at hx
        by_cases hc : hasConflict g sel c = true
        · rw [if_pos hc] at hx
          rcases ih sel x hx with h | h
          · exact Or.inl h
          · exact Or.inr (List.mem_cons_of_mem _ h)
        · rw [if_neg hc] at hx
          rcases ih (sel ++ [c]) x hx with h | h
          · rcases List.mem_append.mp h with h2 | h2
            · exact Or.inl h2
            · rw [List.mem_singleton] at h2
              subst h2
              exact Or.inr (List.mem_cons_self _ _)
          · exact Or.inr (List.mem_cons_of_mem _ h)

theorem relaxedSelect_mem {topN : ℕ} {g : ℚ} :
    ∀ (rest sel : List Candidate) (x : Candidate),
      x ∈ relaxedSelect topN g sel rest → x ∈ sel ∨ x ∈ rest := by
  intro rest
  induction rest with
  | nil => intro sel x hx; simp only [relaxedSelect] at hx; exact Or.inl hx
  | cons c rest ih =>
      intro sel x hx
      rw [relaxedSelect] at hx
      by_cases hlen : topN ≤ sel.length
      · rw [if_pos hlen] at hx; exact Or.inl hx
      · rw [if_neg hlen] at hx
        by_cases hmem : c ∈ sel
        · rw [if_pos hmem] at hx
          rcases ih sel x hx with h | h
          · exact Or.inl h
          · exact Or.inr (List.mem_cons_of_mem _ h)
        · rw [if_neg hmem] at hx
          by_cases hc : hasConflict g sel c = true
          · rw [if_pos hc] at hx
            rcases ih sel x hx with h | h
            · exact Or.inl h
            · exact Or.inr (List.mem_cons_of_mem _ h)
          · rw [if_neg hc] at hx
            rcases ih (sel ++ [c]) x hx with h | h
            · rcases List.mem_append.mp h with h2 | h2
              · exact Or.inl h2
              · rw [List.mem_singleton] at h2
                subst h2
                exact Or.inr (List.mem_cons_self _ _)
            · exact Or.inr (List.mem_cons_of_mem _ h)


/-! ### Candidate sizing bounds -/

/-- Well-formedness of a heatmap point relative to the video duration. -/
def PtWF (videoDurationS : ℚ) (p : HeatmapPoint) : Prop :=
  0 ≤ p.startMs ∧ p.startMs ≤ p.endMs ∧ p.endMs ≤ 1000 * videoDurationS

/-- Well-formedness of a raw zone relative to the video duration. -/
def ZoneWF (videoDurationS : ℚ) (z : RawZone) : Prop :=
  0 ≤ z.startMs ∧ z.startMs ≤ z.endMs ∧ z.endMs ≤ 1000 * videoDurationS ∧
    0 ≤ z.peakTimeMs ∧ z.peakTimeMs ≤ 1000 * videoDurationS

theorem initZone_wf {D : ℚ} {m : HeatmapPoint} (h : PtWF D m) : ZoneWF D (initZone m) := by
  obtain ⟨h1, h2, h3⟩ := h
  exact ⟨h1, h2, h3, h1, le_trans h2 h3⟩

theorem extendZone_wf {D : ℚ} {z : RawZone} {m : HeatmapPoint}
    (hz : ZoneWF D z) (hm : PtWF D m) : ZoneWF D (extendZone z m) := by
  obtain ⟨z1, z2, z3, z4, z5⟩ := hz
  obtain ⟨m1, m2, m3⟩ := hm
  refine ⟨z1, le_trans z2 (le_max_left _ _), max_le z3 m3, ?_, ?_⟩ <;>
    · simp only [extendZone]
      split
      · first | exact m1 | exact le_trans m2 m3
      · first | exact z4 | exact z5

theorem buildZones_wf {D : ℚ} {l : List HeatmapPoint}
    (h : ∀ m ∈ l, PtWF D m) : ∀ z ∈ buildZones l, ZoneWF D z := by
  cases l with
  | nil => simp [buildZones]
  | cons m rest =>
      have hstep : ∀ (rest2 : List HeatmapPoint) (acc : List RawZone × RawZone),
          (∀ m2 ∈ rest2, PtWF D m2) →
          (∀ z ∈ acc.1, ZoneWF D z) → ZoneWF D acc.2 →
          (∀ z ∈ (rest2.foldl zoneStep acc).1, ZoneWF D z) ∧
            ZoneWF D (rest2.foldl zoneStep acc).2 := by
        intro rest2
        induction rest2 with
        | nil => intro acc _ h1 h2; exact ⟨h1, h2⟩
        | cons m2 rest2 ih =>
            intro acc hwf h1 h2
            rw [List.foldl_cons]
            have hm2 : PtWF D m2 := hwf m2 (List.mem_cons_self _ _)
            have hwf2 : ∀ m3 ∈ rest2, PtWF D m3 :=
              fun m3 hm3 => hwf m3 (List.mem_cons_of_mem _ hm3)
            refine ih (zoneStep acc m2) hwf2 ?_ ?_
            · intro z hz
              simp only [zoneStep] at hz
              split at hz
              · exact h1 z hz
              · rcases List.mem_append.mp hz with h3 | h3
                · exact h1 z h3
                · rw [List.mem_singleton] at h3
                  subst h3
                  exact h2
            · simp only [zoneStep]
              split
              · exact extendZone_wf h2 hm2
              · exact initZone_wf hm2
      intro z hz
      simp only [buildZones] at hz
      have hm : PtWF D m := h m (List.mem_cons_self _ _)
      have hrest : ∀ m2 ∈ rest, PtWF D m2 :=
        fun m2 hm2 => h m2 (List.mem_cons_of_mem _ hm2)
      obtain ⟨ha, hb⟩ := hstep rest ([], initZone m) hrest (by simp) (initZone_wf hm)
      rcases List.mem_append.mp hz with h3 | h3
      · exact ha z h3
      · rw [List.mem_singleton] at h3
        subst h3
        exact hb

/-- After the expand stage, the working range has duration at least
`minDurationS`, a non-negative start, and an end within the video. -/
theorem expandSeg_spec {D minDur p s0 e0 : ℚ} (hmin : 0 < minDur) (hD : minDur ≤ D)
    (hp0 : 0 ≤ p) (hpD : p ≤ D) (hs0 : 0 ≤ s0) (hse : s0 ≤ e0) (heD : e0 ≤ D) :
    minDur ≤ (expandSeg D minDur p (s0, e0)).2 - (expandSeg D minDur p (s0, e0)).1 ∧
      0 ≤ (expandSeg D minDur p (s0, e0)).1 ∧ (expandSeg D minDur p (s0, e0)).2 ≤ D := by
  simp only [expandSeg]
  split_ifs with h1 h2 h3
  · -- boundary hit, start at 0: range (0, min D minDur)
    rw [h3]
    rcases min_cases D minDur with ⟨hm, hm2⟩ | ⟨hm, hm2⟩ <;> rw [hm] <;>
      refine ⟨?_, ?_, ?_⟩ <;> (try dsimp only) <;> linarith
  · -- boundary hit, start shifted back: range (max 0 (e - minDur), e)
    have hsp : 0 < p - minDur / 2 := by
      rcases max_cases 0 (p - minDur / 2) with ⟨hm, hm2⟩ | ⟨hm, hm2⟩
      · exact absurd hm h3
      · linarith
    have he2 : minDur ≤ min D (p + minDur / 2) := by
      rcases min_cases D (p + minDur / 2) with ⟨hm, hm2⟩ | ⟨hm, hm2⟩ <;> rw [hm] <;> linarith
    have hmax : 0 ⊔ (min D (p + minDur / 2) - minDur) = min D (p + minDur / 2) - minDur := by
      rcases max_cases 0 (min D (p + minDur / 2) - minDur) with ⟨hm, hm2⟩ | ⟨hm, hm2⟩
      · rw [hm]; linarith
      · exact hm
    rw [hmax]
    have hmin2 : min D (p + minDur / 2) ≤ D := min_le_left _ _
    refine ⟨?_, ?_, ?_⟩ <;> (try dsimp only) <;> linarith
  · -- centered range already long enough
    push_neg at h2
    have ha : (0:ℚ) ≤ 0 ⊔ (p - minDur / 2) := le_max_left _ _
    have hb : min D (p + minDur / 2) ≤ D := min_le_left _ _
    refine ⟨?_, ?_, ?_⟩ <;> (try dsimp only) <;> linarith
  · -- no expansion
    push_neg at h1
    refine ⟨?_, ?_, ?_⟩ <;> (try dsimp only) <;> linarith

/-- After the trim stage, the duration lies in `[minDurationS, maxDurationS]`
and the start stays non-negative. -/
theorem trimSeg_spec {D minDur maxDur p s e : ℚ} (hmm : minDur ≤ maxDur)
    (hp0 : 0 ≤ p) (hpD : p ≤ D)
    (h1 : minDur ≤ e - s) (h2 : 0 ≤ s) (h3 : e ≤ D) :
    minDur ≤ (trimSeg D maxDur p (s, e)).2 - (trimSeg D maxDur p (s, e)).1 ∧
      (trimSeg D maxDur p (s, e)).2 - (trimSeg D maxDur p (s, e)).1 ≤ maxDur ∧
      0 ≤ (trimSeg D maxDur p (s, e)).1 := by
  simp only [trimSeg]
  split_ifs with h4 h5 h6
  · -- boundary hit with start 0: range (0, min D maxDur)
    have hD2 : maxDur < D := by linarith
    rw [h5.2]
    rcases min_cases D maxDur with ⟨hm, hm2⟩ | ⟨hm, hm2⟩ <;> rw [hm] <;>
      refine ⟨?_, ?_, ?_⟩ <;> (try dsimp only) <;> linarith
  · -- boundary hit, start shifted back: (max 0 (e2 - maxDur), e2)
    have hD2 : maxDur < D := by linarith
    have hs2ne : ¬ ((0:ℚ) ⊔ (p - maxDur / 2) = 0) := fun h => h5 ⟨h6, h⟩
    have hsp : 0 < p - maxDur / 2 := by
      rcases max_cases 0 (p - maxDur / 2) with ⟨hm, hm2⟩ | ⟨hm, hm2⟩
      · exact absurd hm hs2ne
      · linarith
    have he2 : maxDur ≤ min D (p + maxDur / 2) := by
      rcases min_cases D (p + maxDur / 2) with ⟨hm, hm2⟩ | ⟨hm, hm2⟩ <;> rw [hm] <;> linarith
    have hmax : 0 ⊔ (min D (p + maxDur / 2) - maxDur) = min D (p + maxDur / 2) - maxDur := by
      rcases max_cases 0 (min D (p + maxDur / 2) - maxDur) with ⟨hm, hm2⟩ | ⟨hm, hm2⟩
      · rw [hm]; linarith
      · exact hm
    rw [hmax]
    refine ⟨?_, ?_, ?_⟩ <;> (try dsimp only) <;> linarith
  · -- centered range spans exactly the maximum duration
    have hsub : p - maxDur / 2 ≤ 0 ⊔ (p - maxDur / 2) := le_max_right _ _
    have hemin : min D (p + maxDur / 2) ≤ p + maxDur / 2 := min_le_right _ _
    have ha : (0:ℚ) ≤ 0 ⊔ (p - maxDur / 2) := le_max_left _ _
    push_neg at h6
    refine ⟨?_, ?_, ?_⟩ <;> (try dsimp only) <;> linarith
  · -- no trim
    push_neg at h4
    refine ⟨?_, ?_, ?_⟩ <;> (try dsimp only) <;> linarith

/-- Bounds on the rounded fields of a sized candidate. -/
theorem sizeCandidate_spec {D minDur maxDur : ℚ} {z : RawZone}
    (hz : ZoneWF D z) (hmin : 0 < minDur) (hmm : minDur ≤ maxDur) (hD : minDur ≤ D) :
    minDur - 1/20 ≤ (sizeCandidate D minDur maxDur z).durationS ∧
      (sizeCandidate D minDur maxDur z).durationS ≤ maxDur + 1/20 ∧
      (sizeCandidate D minDur maxDur z).startS + (minDur - 1/10) ≤
        (sizeCandidate D minDur maxDur z).endS ∧
      0 ≤ (sizeCandidate D minDur maxDur z).startS := by
  obtain ⟨z1, z2, z3, z4, z5⟩ := hz
  have hs0 : 0 ≤ z.startMs / 1000 := by linarith
  have hse : z.startMs / 1000 ≤ z.endMs / 1000 := by linarith
  have heD : z.endMs / 1000 ≤ D := by linarith
  have hp0 : 0 ≤ z.peakTimeMs / 1000 := by linarith
  have hpD : z.peakTimeMs / 1000 ≤ D := by linarith
  obtain ⟨e1, e2, e3⟩ := expandSeg_spec hmin hD hp0 hpD hs0 hse heD
  obtain ⟨t1, t2, t3⟩ := trimSeg_spec hmm hp0 hpD e1 e2 e3
  simp only [sizeCandidate]
  constructor
  · have := le_round1 ((trimSeg D maxDur (z.peakTimeMs / 1000)
      (expandSeg D minDur (z.peakTimeMs / 1000) (z.startMs / 1000, z.endMs / 1000))).2 -
      (trimSeg D maxDur (z.peakTimeMs / 1000)
      (expandSeg D minDur (z.peakTimeMs / 1000) (z.startMs / 1000, z.endMs / 1000))).1)
    linarith
  constructor
  · have := round1_le ((trimSeg D maxDur (z.peakTimeMs / 1000)
      (expandSeg D minDur (z.peakTimeMs / 1000) (z.startMs / 1000, z.endMs / 1000))).2 -
      (trimSeg D maxDur (z.peakTimeMs / 1000)
      (expandSeg D minDur (z.peakTimeMs / 1000) (z.startMs / 1000, z.endMs / 1000))).1)
    linarith
  constructor
  · have ha := round1_le ((trimSeg D maxDur (z.peakTimeMs / 1000)
      (expandSeg D minDur (z.peakTimeMs / 1000) (z.startMs / 1000, z.endMs / 1000))).1)
    have hb := le_round1 ((trimSeg D maxDur (z.peakTimeMs / 1000)
      (expandSeg D minDur (z.peakTimeMs / 1000) (z.startMs / 1000, z.endMs / 1000))).2)
    linarith
  · exact round1_nonneg t3


/-! ### Properties of the detector pipeline -/

/-- Every ranked candidate is a scored, sized zone of the working markers. -/
theorem rankedCandidates_mem {hm : List HeatmapPoint} {D : ℚ} {opts : PeakOptions}
    {c : Candidate} (hc : c ∈ rankedCandidates hm D opts) :
    ∃ z ∈ buildZones ((hotMarkers hm (adaptThreshold hm opts.intensityThreshold)).insertionSort
      (fun a b => a.startMs ≤ b.startMs)),
      c = scoreCandidate opts.maxDurationS
        (sizeCandidate D opts.minDurationS opts.maxDurationS z) := by
  simp only [rankedCandidates] at hc
  have hperm := List.perm_insertionSort
    (fun a b : Candidate => b.score ≤ a.score)
    (((buildZones ((hotMarkers hm (adaptThreshold hm opts.intensityThreshold)).insertionSort
        (fun a b => a.startMs ≤ b.startMs))).map
      (sizeCandidate D opts.minDurationS opts.maxDurationS)).map
        (scoreCandidate opts.maxDurationS))
  have hc2 := hperm.mem_iff.mp hc
  rw [List.map_map] at hc2
  obtain ⟨z, hz, hzc⟩ := List.mem_map.mp hc2
  exact ⟨z, hz, hzc.symm⟩

/-- Every selected candidate is a ranked candidate. -/
theorem selectedCandidates_mem {hm : List HeatmapPoint} {D : ℚ} {opts : PeakOptions}
    {c : Candidate} (hc : c ∈ selectedCandidates hm D opts) :
    c ∈ rankedCandidates hm D opts := by
  simp only [selectedCandidates] at hc
  split at hc
  · rcases relaxedSelect_mem _ _ _ hc with h | h
    · rcases strictSelect_mem _ _ _ h with h2 | h2
      · simp at h2
      · exact h2
    · exact h
  · rcases strictSelect_mem _ _ _ hc with h | h
    · simp at h
    · exact h

/-- Field bounds for every selected candidate, from heatmap well-formedness
and sensible options. -/
theorem selectedCandidates_spec {hm : List HeatmapPoint} {D : ℚ} {opts : PeakOptions}
    (hWF : ∀ p ∈ hm, PtWF D p) (hmin : 0 < opts.minDurationS)
    (hmm : opts.minDurationS ≤ opts.maxDurationS) (hD : opts.minDurationS ≤ D) :
    ∀ c ∈ selectedCandidates hm D opts,
      opts.minDurationS - 1/20 ≤ c.durationS ∧
        c.durationS ≤ opts.maxDurationS + 1/20 ∧
        c.startS + (opts.minDurationS - 1/10) ≤ c.endS ∧
        0 ≤ c.startS := by
  intro c hc
  obtain ⟨z, hz, hzc⟩ := rankedCandidates_mem (selectedCandidates_mem hc)
  have hmark : ∀ m ∈ (hotMarkers hm (adaptThreshold hm opts.intensityThreshold)).insertionSort
      (fun a b => a.startMs ≤ b.startMs), PtWF D m := by
    intro m hmem
    have := (List.perm_insertionSort (fun a b : HeatmapPoint => a.startMs ≤ b.startMs)
      (hotMarkers hm (adaptThreshold hm opts.intensityThreshold))).mem_iff.mp hmem
    exact hWF m (List.mem_of_mem_filter this)
  have hzwf := buildZones_wf hmark z hz
  have hspec := sizeCandidate_spec hzwf hmin hmm hD
  have hfields : c.durationS = (sizeCandidate D opts.minDurationS opts.maxDurationS z).durationS ∧
      c.startS = (sizeCandidate D opts.minDurationS opts.maxDurationS z).startS ∧
      c.endS = (sizeCandidate D opts.minDurationS opts.maxDurationS z).endS := by
    rw [hzc]
    exact ⟨rfl, rfl, rfl⟩
  rw [hfields.1, hfields.2.1, hfields.2.2]
  exact hspec

/-- The selected candidates are pairwise separated by `γ` whenever `γ` is
below both the strict and the relaxed gap. -/
theorem selectedCandidates_pairwise {hm : List HeatmapPoint} {D : ℚ} {opts : PeakOptions}
    {γ : ℚ} (h1 : γ ≤ opts.minGapS) (h2 : γ ≤ max (opts.minGapS / 2) 10) :
    (selectedCandidates hm D opts).Pairwise (fun a b => γ ≤ candGap a b) := by
  simp only [selectedCandidates]
  split
  · exact relaxedSelect_pairwise h2 _ _ (strictSelect_pairwise h1 _ [] List.Pairwise.nil)
  · exact strictSelect_pairwise h1 _ [] List.Pairwise.nil

/-- From sortedness, pairwise symmetric separation and positive segment
extent, later segments start after earlier ones end, `γ` apart. -/
theorem pairwise_gap_of_sorted {l : List Candidate} {γ : ℚ} (hγ : 0 ≤ γ)
    (hsort : l.Pairwise (fun a b => a.startS ≤ b.startS))
    (hgap : l.Pairwise (fun a b => γ ≤ candGap a b))
    (hpos : ∀ c ∈ l, c.startS < c.endS) :
    l.Pairwise (fun a b => γ ≤ b.startS - a.endS) := by
  rw [List.pairwise_iff_get] at hsort hgap ⊢
  intro i j hij
  have hs := hsort i j hij
  have hg := hgap i j hij
  have hpi := hpos (l.get i) (List.get_mem l i.1 i.2)
  have hpj := hpos (l.get j) (List.get_mem l j.1 j.2)
  rw [candGap] at hg
  rcases le_max_iff.mp hg with h | h
  · exact h
  · linarith

/-- The segments returned by `findPeakSegments` all come from the selected
candidates. -/
theorem findPeakSegments_sorted_pairwise {hm : List HeatmapPoint} {D : ℚ}
    {opts : PeakOptions} {R : PeakSegment → PeakSegment → Prop}
    (h : ((selectedCandidates hm D opts).insertionSort
        (fun a b => a.startS ≤ b.startS)).Pairwise
      (fun a b => R (toSegment a) (toSegment b))) :
    (findPeakSegments hm D opts).Pairwise R := by
  simp only [findPeakSegments]
  split_ifs
  · exact List.Pairwise.nil
  · exact List.Pairwise.nil
  · rw [List.pairwise_map]
    exact h


theorem candGap_symm : ∀ {a b : Candidate} {γ : ℚ}, γ ≤ candGap a b → γ ≤ candGap b a := by
  intro a b γ h
  rwa [candGap_comm]

/-- When the strict pass already found `topN` segments, the relaxation pass
is skipped. -/
theorem selectedCandidates_eq_strict {hm : List HeatmapPoint} {D : ℚ} {opts : PeakOptions}
    (h : opts.topN ≤ (strictSelect opts.topN opts.minGapS []
      (rankedCandidates hm D opts)).length) :
    selectedCandidates hm D opts =
      strictSelect opts.topN opts.minGapS [] (rankedCandidates hm D opts) := by
  simp only [selectedCandidates]
  rw [if_neg]
  intro hcon
  exact absurd h (not_le.mpr hcon.1)

/-- Claim C1, amended: the PEAK DETECTOR alone returns non-overlapping
segments (for a well-formed heatmap, `0 < 0.1 < minDurationS ≤ maxDurationS`,
`minDurationS ≤ videoDurationS`, and a non-negative gap option): in the
returned list, sorted by `startS`, every later segment starts no earlier
than every earlier segment ends.  (The boundary optimizer can break this;
see the counterexample.) -/
theorem findPeakSegments_nonOverlap (hm : List HeatmapPoint) (D : ℚ) (opts : PeakOptions)
    (hWF : ∀ p ∈ hm, PtWF D p) (hmin : 1/10 < opts.minDurationS)
    (hmm : opts.minDurationS ≤ opts.maxDurationS) (hD : opts.minDurationS ≤ D)
    (hgap : 0 ≤ opts.minGapS) :
    (findPeakSegments hm D opts).Pairwise (fun a b => a.endS ≤ b.startS) := by
  apply findPeakSegments_sorted_pairwise
  haveI : IsTotal Candidate (fun a b => a.startS ≤ b.startS) := ⟨fun a b => le_total _ _⟩
  haveI : IsTrans Candidate (fun a b => a.startS ≤ b.startS) :=
    ⟨fun _ _ _ hab hbc => le_trans hab hbc⟩
  have hsorted := List.sorted_insertionSort (fun a b : Candidate => a.startS ≤ b.startS)
    (selectedCandidates hm D opts)
  have hperm := List.perm_insertionSort (fun a b : Candidate => a.startS ≤ b.startS)
    (selectedCandidates hm D opts)
  have hgapP : (selectedCandidates hm D opts).Pairwise (fun a b => 0 ≤ candGap a b) :=
    selectedCandidates_pairwise hgap
      (le_trans (by norm_num) (le_max_right (opts.minGapS / 2) 10))
  have hgapS := (hperm.pairwise_iff candGap_symm).mpr hgapP
  have hpos : ∀ c ∈ (selectedCandidates hm D opts).insertionSort
      (fun a b => a.startS ≤ b.startS), c.startS < c.endS := by
    intro c hc
    have hc2 := hperm.mem_iff.mp hc
    have := selectedCandidates_spec hWF (by linarith) hmm hD c hc2
    linarith [this.2.2.1]
  have := pairwise_gap_of_sorted le_rfl hsorted hgapS hpos
  exact this.imp (by intro a b h; simp only [toSegment]; linarith)

/-- Claim C2: when the strict greedy pass selects at least `topN`
candidates, consecutive segments of the returned (sorted) list are
separated by at least `minGapS`. -/
theorem findPeakSegments_gap_discipline (hm : List HeatmapPoint) (D : ℚ)
    (opts : PeakOptions)
    (hWF : ∀ p ∈ hm, PtWF D p) (hmin : 1/10 < opts.minDurationS)
    (hmm : opts.minDurationS ≤ opts.maxDurationS) (hD : opts.minDurationS ≤ D)
    (hgap : 0 < opts.minGapS)
    (hstrict : opts.topN ≤ (strictSelect opts.topN opts.minGapS []
      (rankedCandidates hm D opts)).length) :
    (findPeakSegments hm D opts).Pairwise
      (fun a b => opts.minGapS ≤ b.startS - a.endS) := by
  apply findPeakSegments_sorted_pairwise
  haveI : IsTotal Candidate (fun a b => a.startS ≤ b.startS) := ⟨fun a b => le_total _ _⟩
  haveI : IsTrans Candidate (fun a b => a.startS ≤ b.startS) :=
    ⟨fun _ _ _ hab hbc => le_trans hab hbc⟩
  have hsorted := List.sorted_insertionSort (fun a b : Candidate => a.startS ≤ b.startS)
    (selectedCandidates hm D opts)
  have hperm := List.perm_insertionSort (fun a b : Candidate => a.startS ≤ b.startS)
    (selectedCandidates hm D opts)
  have hgapP : (selectedCandidates hm D opts).Pairwise
      (fun a b => opts.minGapS ≤ candGap a b) := by
    rw [selectedCandidates_eq_strict hstrict]
    exact strictSelect_pairwise le_rfl _ [] List.Pairwise.nil
  have hgapS := (hperm.pairwise_iff candGap_symm).mpr hgapP
  have hpos : ∀ c ∈ (selectedCandidates hm D opts).insertionSort
      (fun a b => a.startS ≤ b.startS), c.startS < c.endS := by
    intro c hc
    have hc2 := hperm.mem_iff.mp hc
    have := selectedCandidates_spec hWF (by linarith) hmm hD c hc2
    linarith [this.2.2.1]
  have := pairwise_gap_of_sorted (le_of_lt hgap) hsorted hgapS hpos
  exact this.imp (by intro a b h; simpa only [toSegment] using h)

/-- Claim C3, amended: the PEAK DETECTOR's segments respect the duration
bounds up to the 0.1 s rounding tolerance, provided additionally
`minDurationS ≤ videoDurationS` and the heatmap lies inside the video.
(When `minDurationS > videoDurationS`, or after the boundary optimizer,
the lower bound can fail; see the counterexample.) -/
theorem findPeakSegments_duration_bounds (hm : List HeatmapPoint) (D : ℚ)
    (opts : PeakOptions)
    (hWF : ∀ p ∈ hm, PtWF D p) (hmin : 0 < opts.minDurationS)
    (hmm : opts.minDurationS ≤ opts.maxDurationS) (hD : opts.minDurationS ≤ D) :
    ∀ seg ∈ findPeakSegments hm D opts,
      opts.minDurationS - 1/10 ≤ seg.durationS ∧
        seg.durationS ≤ opts.maxDurationS + 1/10 := by
  intro seg hseg
  simp only [findPeakSegments] at hseg
  split_ifs at hseg
  · simp at hseg
  · simp at hseg
  · obtain ⟨c, hc, hcs⟩ := List.mem_map.mp hseg
    have hperm := List.perm_insertionSort (fun a b : Candidate => a.startS ≤ b.startS)
      (selectedCandidates hm D opts)
    have hc2 := hperm.mem_iff.mp hc
    have hspec := selectedCandidates_spec hWF hmin hmm hD c hc2
    rw [← hcs]
    simp only [toSegment]
    exact ⟨by linarith [hspec.1], by linarith [hspec.2.1]⟩


/-- The ranked candidate list of the two-zone example. -/
theorem exRanked : rankedCandidates exHeatmap 24 exOpts =
    [⟨0, 10, 10, 227/250, 19/20, 19/2, 3829/3000⟩,
     ⟨14, 24, 10, 4/5, 4/5, 14, 337/300⟩] := by
  have h1 : exOpts.intensityThreshold = 3/5 := rfl
  simp only [rankedCandidates, h1, exThreshold, exHot, exSortedMarkers, exZones]
  norm_num [exOpts, exZoneA, exZoneB, sizeCandidate, expandSeg, trimSeg, scoreCandidate,
    List.insertionSort, List.orderedInsert, round1, round3, jround, Int.floor_eq_iff]

theorem exStrictLen : (strictSelect exOpts.topN exOpts.minGapS []
    (rankedCandidates exHeatmap 24 exOpts)).length = 2 := by
  rw [exRanked]
  norm_num [exOpts, strictSelect, hasConflict, List.any_cons, List.any_nil]

/-- Claim C1 counterexample: on `exHeatmap` the detector returns
`[0,10]` and `[14,24]`, and the boundary optimizer (empty silence context,
target bounds 10/12 as passed by the analyze handler) moves the second
segment's start to 9.5 s, before the first segment's end at 10 s. -/
theorem detector_optimizer_overlap_cex :
    ¬ (applyOptimizations (optimizeSegments (findPeakSegments exHeatmap 24 exOpts)
        exHeatmap [] 24 10 12)).Pairwise (fun a b => a.endS ≤ b.startS) := by
  rw [exSegments, exOptimized]
  intro hpair
  rw [List.pairwise_cons] at hpair
  have := hpair.1 _ (List.mem_cons_self _ _)
  norm_num at this

/-- Witness for the amended claim C1 at the two-zone example. -/
theorem findPeakSegments_nonOverlap_witness :
    (∀ p ∈ exHeatmap, PtWF 24 p) ∧
      (findPeakSegments exHeatmap 24 exOpts).Pairwise (fun a b => a.endS ≤ b.startS) :=
  ⟨by intro p hp; norm_num [exHeatmap, PtWF] at hp ⊢; rcases hp with h|h|h|h|h|h|h|h|h|h|h <;>
      rw [h] <;> norm_num,
   findPeakSegments_nonOverlap exHeatmap 24 exOpts
     (by intro p hp; norm_num [exHeatmap, PtWF] at hp ⊢; rcases hp with h|h|h|h|h|h|h|h|h|h|h <;>
        rw [h] <;> norm_num)
     (by norm_num [exOpts]) (by norm_num [exOpts]) (by norm_num [exOpts])
     (by norm_num [exOpts])⟩

/-- Witness for claim C2 at the two-zone example: the strict pass selects
`topN = 2` candidates and the returned segments are 4 s apart. -/
theorem findPeakSegments_gap_discipline_witness :
    exOpts.topN ≤ (strictSelect exOpts.topN exOpts.minGapS []
        (rankedCandidates exHeatmap 24 exOpts)).length ∧
      (findPeakSegments exHeatmap 24 exOpts).Pairwise
        (fun a b => exOpts.minGapS ≤ b.startS - a.endS) :=
  ⟨by rw [exStrictLen]; norm_num [exOpts],
   findPeakSegments_gap_discipline exHeatmap 24 exOpts
     (by intro p hp; norm_num [exHeatmap, PtWF] at hp ⊢; rcases hp with h|h|h|h|h|h|h|h|h|h|h <;>
        rw [h] <;> norm_num)
     (by norm_num [exOpts]) (by norm_num [exOpts]) (by norm_num [exOpts])
     (by norm_num [exOpts]) (by rw [exStrictLen]; norm_num [exOpts])⟩

/-- Claim C3 counterexample: with the default options on a 10 s video
(`minDurationS = 15 > videoDurationS`), detector plus optimizer produce a
10 s segment, below `minDurationS - 0.1`. -/
theorem duration_bounds_cex :
    ∃ seg ∈ applyOptimizations (optimizeSegments
        (findPeakSegments exHeatmap2 10 defaultPeakOptions) exHeatmap2 [] 10 15 60),
      seg.durationS < 15 - 1/10 := by
  rw [exSegments2, exOptimized2]
  exact ⟨⟨0, 10, 10, 9/10, 9/10⟩, List.mem_singleton.mpr rfl, by norm_num⟩

/-- Witness for the amended claim C3 at the two-zone example. -/
theorem findPeakSegments_duration_bounds_witness :
    ((0:ℚ) < exOpts.minDurationS ∧ exOpts.minDurationS ≤ 24) ∧
      ∀ seg ∈ findPeakSegments exHeatmap 24 exOpts,
        exOpts.minDurationS - 1/10 ≤ seg.durationS ∧
          seg.durationS ≤ exOpts.maxDurationS + 1/10 :=
  ⟨by norm_num [exOpts],
   findPeakSegments_duration_bounds exHeatmap 24 exOpts
     (by intro p hp; norm_num [exHeatmap, PtWF] at hp ⊢; rcases hp with h|h|h|h|h|h|h|h|h|h|h <;>
        rw [h] <;> norm_num)
     (by norm_num [exOpts]) (by norm_num [exOpts]) (by norm_num [exOpts])⟩


/-! ### Signal combiner: single-source identity and methodsUsed -/

/-- Claim C4: a single non-empty source passes through `combineSignals`
unchanged, and `methodsUsed` is exactly its method. -/
theorem combineSignals_single (s : SignalSource) (videoDurationS windowSizeMs : ℚ)
    (h : s.points ≠ []) :
    combineSignals [s] videoDurationS windowSizeMs =
      ⟨s.points, [s.method]⟩ := by
  have hf : ([s].filter (fun s => ¬ s.points.isEmpty)) = [s] := by
    simp [List.filter_cons, List.isEmpty_iff, h]
  simp only [combineSignals, hf]
  norm_num [List.headI]

theorem combineSignals_single_witness :
    ([⟨0, 1000, 1/2⟩] : List HeatmapPoint) ≠ [] ∧
      combineSignals [⟨DetectionMethod.audio, "Audio Energy", 1, [⟨0, 1000, 1/2⟩]⟩] 5 2000 =
        ⟨[⟨0, 1000, 1/2⟩], [DetectionMethod.audio]⟩ :=
  ⟨by simp,
   combineSignals_single ⟨DetectionMethod.audio, "Audio Energy", 1, [⟨0, 1000, 1/2⟩]⟩ 5 2000
     (by simp)⟩

/-- With at least two active sources, `methodsUsed` is the list of active
methods. -/
theorem combineSignals_methodsUsed {sources : List SignalSource}
    {videoDurationS windowSizeMs : ℚ}
    (h2 : 2 ≤ (sources.filter (fun s => ¬ s.points.isEmpty)).length) :
    (combineSignals sources videoDurationS windowSizeMs).methodsUsed =
      (sources.filter (fun s => ¬ s.points.isEmpty)).map (fun s => s.method) := by
  simp only [combineSignals]
  rw [if_neg (by omega), if_neg (by omega)]

/-- Claim C5: with two or more contributing (non-empty) sources, the
combiner's `methodsUsed` carries every contributing method, and the
`/api/analyze` handler appends the sentinel `combined`. -/
theorem analyze_methodsUsed_spec (sources : List SignalSource)
    (videoDurationS windowSizeMs : ℚ)
    (h2 : 2 ≤ (sources.filter (fun s => ¬ s.points.isEmpty)).length) :
    (∀ s ∈ sources, s.points ≠ [] →
        s.method ∈ (combineSignals sources videoDurationS windowSizeMs).methodsUsed) ∧
      DetectionMethod.combined ∈ analyzeMethodsUsed sources videoDurationS := by
  constructor
  · intro s hs hne
    rw [combineSignals_methodsUsed h2]
    refine List.mem_map.mpr ⟨s, ?_, rfl⟩
    rw [List.mem_filter]
    exact ⟨hs, by simpa [List.isEmpty_iff] using hne⟩
  · rw [analyzeMethodsUsed]
    rw [combineSignals_methodsUsed h2]
    rw [if_pos (by rw [List.length_map]; omega)]
    exact List.mem_append_right _ (List.mem_singleton.mpr rfl)

theorem analyze_methodsUsed_witness :
    2 ≤ (exSources.filter (fun s => ¬ s.points.isEmpty)).length ∧
      ((∀ s ∈ exSources, s.points ≠ [] →
          s.method ∈ (combineSignals exSources (3/2) 2000).methodsUsed) ∧
        DetectionMethod.combined ∈ analyzeMethodsUsed exSources (3/2)) :=
  ⟨by norm_num [exSources, List.filter_cons],
   analyze_methodsUsed_spec exSources (3/2) 2000
     (by norm_num [exSources, List.filter_cons])⟩


/-! ### Signal combiner: grid structure and normalization -/

theorem le_foldl_max (b : ℚ) (l : List ℚ) : b ≤ l.foldl max b := by
  induction l generalizing b with
  | nil => exact le_rfl
  | cons y ys ih => exact le_trans (le_max_left b y) (ih (max b y))

theorem mem_le_foldl_max {x b : ℚ} {l : List ℚ} (h : x ∈ l) : x ≤ l.foldl max b := by
  induction l generalizing b with
  | nil => simp at h
  | cons y ys ih =>
      rw [List.foldl_cons]
      rcases List.mem_cons.mp h with h2 | h2
      · subst h2
        exact le_trans (le_max_right b x) (le_foldl_max _ _)
      · exact ih h2

theorem foldl_max_mem (b : ℚ) (l : List ℚ) : l.foldl max b = b ∨ l.foldl max b ∈ l := by
  induction l generalizing b with
  | nil => exact Or.inl rfl
  | cons y ys ih =>
      rw [List.foldl_cons]
      rcases ih (max b y) with h | h
      · rw [h]
        rcases max_cases b y with ⟨h2, _⟩ | ⟨h2, _⟩
        · exact Or.inl h2
        · exact Or.inr (by rw [h2]; exact List.mem_cons_self _ _)
      · exact Or.inr (List.mem_cons_of_mem _ h)

theorem foldl_min_le (b : ℚ) (l : List ℚ) : l.foldl min b ≤ b := by
  induction l generalizing b with
  | nil => exact le_rfl
  | cons y ys ih => exact le_trans (ih (min b y)) (min_le_left b y)

theorem foldl_min_le_mem {x b : ℚ} {l : List ℚ} (h : x ∈ l) : l.foldl min b ≤ x := by
  induction l generalizing b with
  | nil => simp at h
  | cons y ys ih =>
      rw [List.foldl_cons]
      rcases List.mem_cons.mp h with h2 | h2
      · subst h2
        exact le_trans (foldl_min_le _ _) (min_le_right b x)
      · exact ih h2

theorem foldl_min_mem (b : ℚ) (l : List ℚ) : l.foldl min b = b ∨ l.foldl min b ∈ l := by
  induction l generalizing b with
  | nil => exact Or.inl rfl
  | cons y ys ih =>
      rw [List.foldl_cons]
      rcases ih (min b y) with h | h
      · rw [h]
        rcases min_cases b y with ⟨h2, _⟩ | ⟨h2, _⟩
        · exact Or.inl h2
        · exact Or.inr (by rw [h2]; exact List.mem_cons_self _ _)
      · exact Or.inr (List.mem_cons_of_mem _ h)

theorem le_listMax {x d : ℚ} {l : List ℚ} (h : x ∈ l) : x ≤ listMax d l := by
  cases l with
  | nil => simp at h
  | cons y ys =>
      rcases List.mem_cons.mp h with h2 | h2
      · subst h2
        exact le_foldl_max _ _
      · exact mem_le_foldl_max h2

theorem listMax_mem {d : ℚ} {l : List ℚ} (h : l ≠ []) : listMax d l ∈ l := by
  cases l with
  | nil => exact absurd rfl h
  | cons y ys =>
      simp only [listMax]
      rcases foldl_max_mem y ys with h2 | h2
      · rw [h2]; exact List.mem_cons_self _ _
      · exact List.mem_cons_of_mem _ h2

theorem listMin_le {x d : ℚ} {l : List ℚ} (h : x ∈ l) : listMin d l ≤ x := by
  cases l with
  | nil => simp at h
  | cons y ys =>
      rcases List.mem_cons.mp h with h2 | h2
      · subst h2
        exact foldl_min_le _ _
      · exact foldl_min_le_mem h2

theorem listMin_mem {d : ℚ} {l : List ℚ} (h : l ≠ []) : listMin d l ∈ l := by
  cases l with
  | nil => exact absurd rfl h
  | cons y ys =>
      simp only [listMin]
      rcases foldl_min_mem y ys with h2 | h2
      · rw [h2]; exact List.mem_cons_self _ _
      · exact List.mem_cons_of_mem _ h2


/-- Normal form of `combineSignals` when at least two sources are active. -/
theorem combineSignals_two_eq (sources : List SignalSource) (D w : ℚ)
    (h2 : 2 ≤ (sources.filter (fun s => ¬ s.points.isEmpty)).length) :
    combineSignals sources D w =
      ⟨(List.range ((⌈D * 1000 / w⌉).toNat)).map (fun (i : ℕ) =>
        { startMs := (i : ℚ) * w
          endMs := min (((i : ℚ) + 1) * w) (D * 1000)
          intensity :=
            (combinedGridAt (sources.filter (fun s => ¬ s.points.isEmpty))
                ((⌈D * 1000 / w⌉).toNat) (D * 1000) i -
              listMin 0 ((List.range ((⌈D * 1000 / w⌉).toNat)).map
                (combinedGridAt (sources.filter (fun s => ¬ s.points.isEmpty))
                  ((⌈D * 1000 / w⌉).toNat) (D * 1000)))) /
              (if listMax 0 ((List.range ((⌈D * 1000 / w⌉).toNat)).map
                    (combinedGridAt (sources.filter (fun s => ¬ s.points.isEmpty))
                      ((⌈D * 1000 / w⌉).toNat) (D * 1000))) -
                  listMin 0 ((List.range ((⌈D * 1000 / w⌉).toNat)).map
                    (combinedGridAt (sources.filter (fun s => ¬ s.points.isEmpty))
                      ((⌈D * 1000 / w⌉).toNat) (D * 1000))) = 0 then 1
                else listMax 0 ((List.range ((⌈D * 1000 / w⌉).toNat)).map
                    (combinedGridAt (sources.filter (fun s => ¬ s.points.isEmpty))
                      ((⌈D * 1000 / w⌉).toNat) (D * 1000))) -
                  listMin 0 ((List.range ((⌈D * 1000 / w⌉).toNat)).map
                    (combinedGridAt (sources.filter (fun s => ¬ s.points.isEmpty))
                      ((⌈D * 1000 / w⌉).toNat) (D * 1000)))) : HeatmapPoint }),
      (sources.filter (fun s => ¬ s.points.isEmpty)).map (fun s => s.method)⟩ := by
  simp only [combineSignals]
  rw [if_neg (by omega), if_neg (by omega)]


/-- Claim C6, amended: with TWO or more contributing sources (a single
source is returned unchanged, see claim C4) and positive duration and
window, the combined heatmap is a uniform grid: entry `i` spans
`[i·windowMs, min((i+1)·windowMs, durationMs)]` — so every entry except
possibly the truncated last one has width `windowMs` — and the intensities
are min-max normalized: all in `[0, 1]`, attaining both `0` and `1`
whenever the bucket values are not all equal. -/
theorem combineSignals_grid_spec (sources : List SignalSource) (D w : ℚ)
    (h2 : 2 ≤ (sources.filter (fun s => ¬ s.points.isEmpty)).length)
    (hD : 0 < D) (hw : 0 < w) :
    (combineSignals sources D w).combined.length = (⌈D * 1000 / w⌉).toNat ∧
    (∀ (i : ℕ) (hi : i < (combineSignals sources D w).combined.length),
      ((combineSignals sources D w).combined.get ⟨i, hi⟩).startMs = (i : ℚ) * w ∧
      ((combineSignals sources D w).combined.get ⟨i, hi⟩).endMs =
        min (((i : ℚ) + 1) * w) (D * 1000) ∧
      (i + 1 < (combineSignals sources D w).combined.length →
        ((combineSignals sources D w).combined.get ⟨i, hi⟩).endMs -
          ((combineSignals sources D w).combined.get ⟨i, hi⟩).startMs = w)) ∧
    (∀ p ∈ (combineSignals sources D w).combined, 0 ≤ p.intensity ∧ p.intensity ≤ 1) ∧
    ((¬ ∀ p ∈ (combineSignals sources D w).combined,
        ∀ q ∈ (combineSignals sources D w).combined, p.intensity = q.intensity) →
      (∃ p ∈ (combineSignals sources D w).combined, p.intensity = 0) ∧
      (∃ p ∈ (combineSignals sources D w).combined, p.intensity = 1)) := by
  rw [combineSignals_two_eq sources D w h2]
  dsimp only
  set active := sources.filter (fun s => ¬ s.points.isEmpty) with hactive
  set nb := (⌈D * 1000 / w⌉).toNat with hnb
  set gAt := combinedGridAt active nb (D * 1000) with hgAt
  set grid := (List.range nb).map gAt with hgrid
  set mx := listMax 0 grid with hmx
  set mn := listMin 0 grid with hmn
  set rg := if mx - mn = 0 then 1 else mx - mn with hrg
  have hx : (0:ℚ) < D * 1000 / w := by positivity
  have hnb1 : 1 ≤ nb := by
    have hcl : (0:ℤ) < ⌈D * 1000 / w⌉ := Int.ceil_pos.mpr hx
    omega
  have hgridne : grid ≠ [] := by
    rw [hgrid]
    intro hcon
    have h3 := List.map_eq_nil_iff.mp hcon
    rw [List.range_eq_nil] at h3
    omega
  have hmnmx : mn ≤ mx := by
    have hmem := listMax_mem (d := (0:ℚ)) hgridne
    calc mn ≤ listMax 0 grid := listMin_le hmem
      _ = mx := by rw [hmx]
  have hrgpos : 0 < rg := by
    rw [hrg]
    split
    · norm_num
    · rename_i hne
      rcases lt_or_eq_of_le (by linarith : (0:ℚ) ≤ mx - mn) with h | h
      · exact h
      · exact absurd h.symm hne
  have hmemgrid : ∀ i : ℕ, i < nb → gAt i ∈ grid := by
    intro i hi
    rw [hgrid]
    exact List.mem_map.mpr ⟨i, List.mem_range.mpr hi, rfl⟩
  have hintensity : ∀ i : ℕ, i < nb → 0 ≤ (gAt i - mn) / rg ∧ (gAt i - mn) / rg ≤ 1 := by
    intro i hi
    have h1 : mn ≤ gAt i := listMin_le (hmemgrid i hi)
    have h3 : gAt i ≤ mx := le_listMax (hmemgrid i hi)
    constructor
    · exact div_nonneg (by linarith) (le_of_lt hrgpos)
    · rw [div_le_one hrgpos, hrg]
      split
      · rename_i he
        linarith
      · linarith
  refine ⟨by simp, ?_, ?_, ?_⟩
  · intro i hi
    have hi2 : i < nb := by simpa using hi
    have hget : ∀ hig, (((List.range nb).map (fun (i : ℕ) =>
        ({ startMs := (i : ℚ) * w, endMs := min (((i : ℚ) + 1) * w) (D * 1000),
           intensity := (gAt i - mn) / rg } : HeatmapPoint))).get ⟨i, hig⟩) =
        ({ startMs := (i : ℚ) * w, endMs := min (((i : ℚ) + 1) * w) (D * 1000),
           intensity := (gAt i - mn) / rg } : HeatmapPoint) := by
      intro hig
      rw [List.get_eq_getElem]
      simp [List.getElem_map]
    rw [hget]
    refine ⟨rfl, rfl, ?_⟩
    intro h3
    have h4 : i + 1 < nb := by simpa using h3
    have h5 : ((i:ℤ) + 2) ≤ ⌈D * 1000 / w⌉ := by omega
    have h6 : ((i:ℚ) + 2) ≤ (⌈D * 1000 / w⌉ : ℚ) := by exact_mod_cast h5
    have h7 : (⌈D * 1000 / w⌉ : ℚ) < D * 1000 / w + 1 := Int.ceil_lt_add_one _
    have h8 : ((i:ℚ) + 1) < D * 1000 / w := by linarith
    have h9 : ((i:ℚ) + 1) * w < D * 1000 := by
      rw [lt_div_iff₀ hw] at h8
      linarith
    rw [min_eq_left (le_of_lt h9)]
    ring
  · intro p hp
    obtain ⟨i, hir, hpf⟩ := List.mem_map.mp hp
    rw [← hpf]
    exact hintensity i (List.mem_range.mp hir)
  · intro hne
    have hmxmn : mx - mn ≠ 0 := by
      intro h0
      apply hne
      intro p hp q hq
      obtain ⟨i, hir, hpf⟩ := List.mem_map.mp hp
      obtain ⟨j, hjr, hqf⟩ := List.mem_map.mp hq
      have hgi : gAt i = mn := le_antisymm
        (by linarith [le_listMax (d := (0:ℚ)) (hmemgrid i (List.mem_range.mp hir))])
        (listMin_le (hmemgrid i (List.mem_range.mp hir)))
      have hgj : gAt j = mn := le_antisymm
        (by linarith [le_listMax (d := (0:ℚ)) (hmemgrid j (List.mem_range.mp hjr))])
        (listMin_le (hmemgrid j (List.mem_range.mp hjr)))
      rw [← hpf, ← hqf]
      dsimp only
      rw [hgi, hgj]
    have hrgval : rg = mx - mn := by rw [hrg, if_neg hmxmn]
    constructor
    · have hmnmem : mn ∈ grid := listMin_mem hgridne
      rw [hgrid] at hmnmem
      obtain ⟨j, hjr, hjeq⟩ := List.mem_map.mp hmnmem
      refine ⟨_, List.mem_map.mpr ⟨j, hjr, rfl⟩, ?_⟩
      dsimp only
      rw [hjeq]
      simp
    · have hmxmem : mx ∈ grid := listMax_mem hgridne
      rw [hgrid] at hmxmem
      obtain ⟨j, hjr, hjeq⟩ := List.mem_map.mp hmxmem
      refine ⟨_, List.mem_map.mpr ⟨j, hjr, rfl⟩, ?_⟩
      dsimp only
      rw [hjeq, hrgval]
      exact div_self hmxmn


/-- Claim C6 counterexample: two non-empty sources on a 1.5 s video
(duration not a multiple of the 2000 ms window): the single combined entry
spans 1500 ms, not `windowMs`. -/
theorem combineSignals_grid_cex :
    (3:ℚ)/2 > 0 ∧ exSources ≠ [] ∧
      ∃ p ∈ (combineSignals exSources (3/2) 2000).combined,
        p.endMs - p.startMs ≠ 2000 := by
  refine ⟨by norm_num, by simp [exSources], ?_⟩
  rw [exCombine]
  exact ⟨⟨0, 1500, 0⟩, List.mem_singleton.mpr rfl, by norm_num⟩

theorem combineSignals_grid_spec_witness :
    (2 ≤ (exSources.filter (fun s => ¬ s.points.isEmpty)).length ∧ (0:ℚ) < 3/2 ∧
        (0:ℚ) < 2000) ∧
      ((combineSignals exSources (3/2) 2000).combined.length =
          (⌈(3:ℚ)/2 * 1000 / 2000⌉).toNat ∧
        (∀ (i : ℕ) (hi : i < (combineSignals exSources (3/2) 2000).combined.length),
          ((combineSignals exSources (3/2) 2000).combined.get ⟨i, hi⟩).startMs =
            (i : ℚ) * 2000 ∧
          ((combineSignals exSources (3/2) 2000).combined.get ⟨i, hi⟩).endMs =
            min (((i : ℚ) + 1) * 2000) ((3:ℚ)/2 * 1000) ∧
          (i + 1 < (combineSignals exSources (3/2) 2000).combined.length →
            ((combineSignals exSources (3/2) 2000).combined.get ⟨i, hi⟩).endMs -
              ((combineSignals exSources (3/2) 2000).combined.get ⟨i, hi⟩).startMs = 2000)) ∧
        (∀ p ∈ (combineSignals exSources (3/2) 2000).combined,
          0 ≤ p.intensity ∧ p.intensity ≤ 1) ∧
        ((¬ ∀ p ∈ (combineSignals exSources (3/2) 2000).combined,
            ∀ q ∈ (combineSignals exSources (3/2) 2000).combined,
              p.intensity = q.intensity) →
          (∃ p ∈ (combineSignals exSources (3/2) 2000).combined, p.intensity = 0) ∧
          (∃ p ∈ (combineSignals exSources (3/2) 2000).combined, p.intensity = 1))) :=
  ⟨⟨by norm_num [exSources, List.filter_cons], by norm_num, by norm_num⟩,
   combineSignals_grid_spec exSources (3/2) 2000
     (by norm_num [exSources, List.filter_cons]) (by norm_num) (by norm_num)⟩


/-- Characterization of the adaptive-threshold loop: the working threshold
is the initial one minus `k` decrements of 0.1, every earlier value kept
the loop running, and the final value stops it. -/
theorem adaptThreshold_induction (hm : List HeatmapPoint) (t0 : ℚ) :
    ∃ k : ℕ, adaptThreshold hm t0 = t0 - k * (1/10) ∧
      (∀ j : ℕ, j < k →
        (hotMarkers hm (t0 - j * (1/10))).length < 5 ∧ 1/5 < t0 - j * (1/10)) ∧
      ¬ ((hotMarkers hm (adaptThreshold hm t0)).length < 5 ∧
          1/5 < adaptThreshold hm t0) := by
  induction t0 using adaptThreshold.induct hm with
  | case1 x hcond ih =>
      obtain ⟨k, h1, h2, h3⟩ := ih
      have hstep : adaptThreshold hm x = adaptThreshold hm (x - 1/10) := by
        rw [adaptThreshold, dif_pos hcond]
      refine ⟨k + 1, ?_, ?_, ?_⟩
      · rw [hstep, h1]
        push_cast
        ring
      · intro j hj
        cases j with
        | zero =>
            simp only [Nat.cast_zero, zero_mul, sub_zero]
            exact hcond
        | succ j2 =>
            have hj2 : j2 < k := by omega
            have := h2 j2 hj2
            have harith : x - 1/10 - (j2 : ℚ) * (1/10) = x - ((j2 : ℕ) + 1 : ℕ) * (1/10) := by
              push_cast
              ring
            rw [harith] at this
            exact this
      · rw [hstep]
        exact h3
  | case2 x hcond =>
      have hstop : adaptThreshold hm x = x := by
        rw [adaptThreshold, dif_neg hcond]
      exact ⟨0, by rw [hstop]; push_cast; ring, by omega, by rw [hstop]; exact hcond⟩

/-- Claim C7: the working threshold of `findPeakSegments` starts at
`intensityThreshold` and is decremented by 0.1 while fewer than 5 markers
survive and it stays above 0.2; if no marker survives the final threshold
the detector returns the empty list. -/
theorem findPeakSegments_adaptive_threshold (heatmap : List HeatmapPoint)
    (videoDurationS : ℚ) (opts : PeakOptions) :
    (∃ k : ℕ,
      adaptThreshold heatmap opts.intensityThreshold =
        opts.intensityThreshold - k * (1/10) ∧
      (∀ j : ℕ, j < k →
        (hotMarkers heatmap (opts.intensityThreshold - j * (1/10))).length < 5 ∧
          1/5 < opts.intensityThreshold - j * (1/10)) ∧
      ¬ ((hotMarkers heatmap
            (adaptThreshold heatmap opts.intensityThreshold)).length < 5 ∧
          1/5 < adaptThreshold heatmap opts.intensityThreshold)) ∧
    (hotMarkers heatmap (adaptThreshold heatmap opts.intensityThreshold) = [] →
      findPeakSegments heatmap videoDurationS opts = []) := by
  refine ⟨adaptThreshold_induction heatmap opts.intensityThreshold, ?_⟩
  intro h
  simp only [findPeakSegments]
  split_ifs with h1 h2
  · rfl
  · rfl
  · exact absurd (by simp [h] : (hotMarkers heatmap
      (adaptThreshold heatmap opts.intensityThreshold)).isEmpty = true) h2

def exHeatmap3 : List HeatmapPoint := [⟨0, 1000, 1/10⟩]

theorem exThreshold3 : adaptThreshold exHeatmap3 (3/5) = 1/5 := by
  rw [adaptThreshold]
  norm_num [exHeatmap3, List.filter]
  rw [adaptThreshold]
  norm_num [List.filter]
  rw [adaptThreshold]
  norm_num [List.filter]
  rw [adaptThreshold]
  norm_num [List.filter]
  rw [adaptThreshold]
  norm_num [List.filter]

/-- Witness for claim C7: a heatmap whose single point survives no
threshold; the loop bottoms out at 0.2 and the detector returns `[]`. -/
theorem findPeakSegments_adaptive_threshold_witness :
    hotMarkers exHeatmap3 (adaptThreshold exHeatmap3
        defaultPeakOptions.intensityThreshold) = [] ∧
      findPeakSegments exHeatmap3 100 defaultPeakOptions = [] := by
  have hth : defaultPeakOptions.intensityThreshold = 3/5 := rfl
  have hempty : hotMarkers exHeatmap3 (adaptThreshold exHeatmap3
      defaultPeakOptions.intensityThreshold) = [] := by
    rw [hth, exThreshold3]
    norm_num [hotMarkers, exHeatmap3, List.filter]
  exact ⟨hempty,
    (findPeakSegments_adaptive_threshold exHeatmap3 100 defaultPeakOptions).2 hempty⟩


/-! ### Virality scorer bounds (part_008) -/

theorem jround_nonneg {x : ℚ} (h : 0 ≤ x) : 0 ≤ jround x :=
  le_jround_of_le (n := 0) (by exact_mod_cast h)

/-- `sqrtRound400` is a natural-number cast, hence non-negative. -/
theorem sqrtRound400_nonneg (v : ℚ) : 0 ≤ sqrtRound400 v := by
  unfold sqrtRound400
  exact_mod_cast Nat.zero_le _

/-- The hook-window average is non-negative when all heatmap intensities are. -/
theorem hookAvg_nonneg (heatmap : List HeatmapPoint) (seg : PeakSegment)
    (hhm : ∀ p ∈ heatmap, 0 ≤ p.intensity) :
    0 ≤ ((hookPoints heatmap seg).map (fun p => p.intensity)).sum /
      ((hookPoints heatmap seg).length : ℚ) := by
  apply div_nonneg _ (by exact_mod_cast Nat.zero_le _)
  apply List.sum_nonneg
  intro x hx
  obtain ⟨p, hp, hpx⟩ := List.mem_map.mp hx
  rw [← hpx]
  exact hhm p (List.mem_of_mem_filter hp)

theorem peakScoreZ_bounds (seg : PeakSegment)
    (hpk : 0 ≤ seg.peakIntensity ∧ seg.peakIntensity ≤ 1) :
    0 ≤ peakScoreZ seg ∧ peakScoreZ seg ≤ 100 := by
  unfold peakScoreZ
  exact ⟨jround_nonneg (by nlinarith [hpk.1]),
    jround_le_of_le (by push_cast; nlinarith [hpk.2])⟩

theorem hookScoreZ_bounds (heatmap : List HeatmapPoint) (seg : PeakSegment)
    (hhm : ∀ p ∈ heatmap, 0 ≤ p.intensity)
    (havg : 0 ≤ seg.avgIntensity ∧ seg.avgIntensity ≤ 1) :
    0 ≤ hookScoreZ heatmap seg ∧ hookScoreZ heatmap seg ≤ 100 := by
  have ha0 := hookAvg_nonneg heatmap seg hhm
  simp only [ hookScoreZ]
  split_ifs with h1 h2
  · exact ⟨jround_nonneg (by nlinarith [havg.1]),
      jround_le_of_le (by push_cast; nlinarith [havg.2])⟩
  · exact ⟨le_min (by norm_num) (jround_nonneg (by nlinarith)), min_le_left _ _⟩
  · exact ⟨le_min (by norm_num) (jround_nonneg (by nlinarith)), min_le_left _ _⟩

theorem pacingScoreZ_bounds (heatmap : List HeatmapPoint) (seg : PeakSegment) :
    0 ≤ pacingScoreZ heatmap seg ∧ pacingScoreZ heatmap seg ≤ 100 := by
  simp only [ pacingScoreZ]
  split_ifs with h1
  · exact ⟨le_min (by norm_num) (sqrtRound400_nonneg _), min_le_left _ _⟩
  · norm_num

theorem audioScoreZ_bounds (seg : PeakSegment)
    (havg : 0 ≤ seg.avgIntensity ∧ seg.avgIntensity ≤ 1) :
    0 ≤ audioScoreZ seg ∧ audioScoreZ seg ≤ 100 := by
  unfold audioScoreZ
  exact ⟨jround_nonneg (by nlinarith [havg.1]),
    jround_le_of_le (by push_cast; nlinarith [havg.2])⟩

theorem positionScoreZ_bounds (videoDurationS : ℚ) (seg : PeakSegment)
    (hrp0 : 0 ≤ seg.startS / videoDurationS)
    (hrp1 : seg.startS / videoDurationS < 1) :
    0 ≤ positionScoreZ videoDurationS seg ∧ positionScoreZ videoDurationS seg ≤ 100 := by
  simp only [ positionScoreZ]
  split_ifs with h1 h2
  · have hx0 : 0 ≤ seg.startS / videoDurationS / (33/100) :=
      div_nonneg hrp0 (by norm_num)
    have hx1 : seg.startS / videoDurationS / (33/100) < 1 := by
      rw [div_lt_one (by norm_num : (0:ℚ) < 33/100)]
      linarith
    have hb1 : jround ((1 - seg.startS / videoDurationS / (33/100)) * 20) ≤ 20 :=
      jround_le_of_le (by push_cast; nlinarith)
    have hb0 : 0 ≤ jround ((1 - seg.startS / videoDurationS / (33/100)) * 20) :=
      jround_nonneg (by nlinarith)
    omega
  · have hx0 : 0 ≤ (seg.startS / videoDurationS - 33/100) / (33/100) := by
      apply div_nonneg _ (by norm_num)
      linarith [not_lt.mp h1]
    have hx1 : (seg.startS / videoDurationS - 33/100) / (33/100) < 1 := by
      rw [div_lt_one (by norm_num : (0:ℚ) < 33/100)]
      linarith
    have hb1 : jround ((1 - (seg.startS / videoDurationS - 33/100) / (33/100)) * 30) ≤ 30 :=
      jround_le_of_le (by push_cast; nlinarith)
    have hb0 : 0 ≤ jround ((1 - (seg.startS / videoDurationS - 33/100) / (33/100)) * 30) :=
      jround_nonneg (by nlinarith)
    omega
  · have hx0 : 0 ≤ (seg.startS / videoDurationS - 66/100) / (34/100) := by
      apply div_nonneg _ (by norm_num)
      linarith [not_lt.mp h2]
    have hx1 : (seg.startS / videoDurationS - 66/100) / (34/100) < 1 := by
      rw [div_lt_one (by norm_num : (0:ℚ) < 34/100)]
      linarith
    have hb1 : jround ((1 - (seg.startS / videoDurationS - 66/100) / (34/100)) * 20) ≤ 20 :=
      jround_le_of_le (by push_cast; nlinarith)
    have hb0 : 0 ≤ jround ((1 - (seg.startS / videoDurationS - 66/100) / (34/100)) * 20) :=
      jround_nonneg (by nlinarith)
    omega

theorem durationScoreZ_bounds (seg : PeakSegment) :
    0 ≤ durationScoreZ seg ∧ durationScoreZ seg ≤ 100 := by
  simp only [ durationScoreZ]
  split_ifs with h1 h2 h3 h4
  · norm_num
  · have hb1 : jround ((seg.durationS - 20) / 10 * 30) ≤ 30 :=
      jround_le_of_le (by push_cast; nlinarith [h2.1, h2.2])
    have hb0 : 0 ≤ jround ((seg.durationS - 20) / 10 * 30) :=
      jround_nonneg (by nlinarith [h2.1])
    omega
  · have hb1 : jround ((60 - seg.durationS) / 15 * 30) ≤ 30 :=
      jround_le_of_le (by push_cast; nlinarith [h3.1, h3.2])
    have hb0 : 0 ≤ jround ((60 - seg.durationS) / 15 * 30) :=
      jround_nonneg (by nlinarith [h3.2])
    omega
  · norm_num
  · norm_num

/-- Claim C8: every sub-score and the overall virality score is an integer
between 0 and 100; the scorer is a deterministic function of its inputs,
and `scoreSegments` maps the per-segment scorer over the segment list. -/
theorem scoreSegments_bounds (heatmap : List HeatmapPoint) (videoDurationS : ℚ)
    (seg : PeakSegment)
    (hhm : ∀ p ∈ heatmap, 0 ≤ p.intensity ∧ p.intensity ≤ 1)
    (hs0 : 0 ≤ seg.startS) (hse : seg.startS < seg.endS) (heD : seg.endS ≤ videoDurationS)
    (hdur : seg.durationS = seg.endS - seg.startS)
    (havg : 0 ≤ seg.avgIntensity ∧ seg.avgIntensity ≤ 1)
    (hpk : 0 ≤ seg.peakIntensity ∧ seg.peakIntensity ≤ 1) :
    (0 ≤ (scoreSegment heatmap videoDurationS seg).peakIntensity ∧
      (scoreSegment heatmap videoDurationS seg).peakIntensity ≤ 100) ∧
    (0 ≤ (scoreSegment heatmap videoDurationS seg).hookStrength ∧
      (scoreSegment heatmap videoDurationS seg).hookStrength ≤ 100) ∧
    (0 ≤ (scoreSegment heatmap videoDurationS seg).pacing ∧
      (scoreSegment heatmap videoDurationS seg).pacing ≤ 100) ∧
    (0 ≤ (scoreSegment heatmap videoDurationS seg).audioEnergy ∧
      (scoreSegment heatmap videoDurationS seg).audioEnergy ≤ 100) ∧
    (0 ≤ (scoreSegment heatmap videoDurationS seg).positionBonus ∧
      (scoreSegment heatmap videoDurationS seg).positionBonus ≤ 100) ∧
    (0 ≤ (scoreSegment heatmap videoDurationS seg).durationFit ∧
      (scoreSegment heatmap videoDurationS seg).durationFit ≤ 100) ∧
    (0 ≤ (scoreSegment heatmap videoDurationS seg).overall ∧
      (scoreSegment heatmap videoDurationS seg).overall ≤ 100) ∧
    (∀ hm2 D2 seg2, heatmap = hm2 → videoDurationS = D2 → seg = seg2 →
      scoreSegment heatmap videoDurationS seg = scoreSegment hm2 D2 seg2) ∧
    (∀ segs : List PeakSegment, seg ∈ segs →
      scoreSegments segs heatmap videoDurationS =
        segs.map (scoreSegment heatmap videoDurationS)) := by
  have hD : 0 < videoDurationS := lt_of_le_of_lt hs0 (lt_of_lt_of_le hse heD)
  have hrp0 : 0 ≤ seg.startS / videoDurationS := div_nonneg hs0 (le_of_lt hD)
  have hrp1 : seg.startS / videoDurationS < 1 :=
    (div_lt_one hD).mpr (lt_of_lt_of_le hse heD)
  have c1 := peakScoreZ_bounds seg hpk
  have c2 := hookScoreZ_bounds heatmap seg (fun p hp => (hhm p hp).1) havg
  have c3 := pacingScoreZ_bounds heatmap seg
  have c4 := audioScoreZ_bounds seg havg
  have c5 := positionScoreZ_bounds videoDurationS seg hrp0 hrp1
  have c6 := durationScoreZ_bounds seg
  have q1 : (0:ℚ) ≤ (peakScoreZ seg : ℚ) ∧ (peakScoreZ seg : ℚ) ≤ 100 :=
    ⟨by exact_mod_cast c1.1, by exact_mod_cast c1.2⟩
  have q2 : (0:ℚ) ≤ (hookScoreZ heatmap seg : ℚ) ∧ (hookScoreZ heatmap seg : ℚ) ≤ 100 :=
    ⟨by exact_mod_cast c2.1, by exact_mod_cast c2.2⟩
  have q3 : (0:ℚ) ≤ (pacingScoreZ heatmap seg : ℚ) ∧
      (pacingScoreZ heatmap seg : ℚ) ≤ 100 :=
    ⟨by exact_mod_cast c3.1, by exact_mod_cast c3.2⟩
  have q4 : (0:ℚ) ≤ (audioScoreZ seg : ℚ) ∧ (audioScoreZ seg : ℚ) ≤ 100 :=
    ⟨by exact_mod_cast c4.1, by exact_mod_cast c4.2⟩
  have q5 : (0:ℚ) ≤ (positionScoreZ videoDurationS seg : ℚ) ∧
      (positionScoreZ videoDurationS seg : ℚ) ≤ 100 :=
    ⟨by exact_mod_cast c5.1, by exact_mod_cast c5.2⟩
  have q6 : (0:ℚ) ≤ (durationScoreZ seg : ℚ) ∧ (durationScoreZ seg : ℚ) ≤ 100 :=
    ⟨by exact_mod_cast c6.1, by exact_mod_cast c6.2⟩
  have c7 : 0 ≤ overallScoreZ heatmap videoDurationS seg ∧
      overallScoreZ heatmap videoDurationS seg ≤ 100 := by
    unfold overallScoreZ
    constructor
    · apply jround_nonneg
      nlinarith [q1.1, q2.1, q3.1, q4.1, q5.1, q6.1]
    · apply jround_le_of_le
      push_cast
      nlinarith [q1.2, q2.2, q3.2, q4.2, q5.2, q6.2]
  refine ⟨c1, c2, c3, c4, c5, c6, c7, ?_, ?_⟩
  · intro hm2 D2 seg2 he1 he2 he3
    rw [he1, he2, he3]
  · intro segs hseg
    rw [scoreSegments]
    rw [if_neg]
    intro hcon
    rw [List.isEmpty_iff] at hcon
    rw [hcon] at hseg
    simp at hseg

/-- Witness for C8 at a concrete segment: start 2, end 14, duration 12,
average intensity 1/2, peak intensity 3/4, empty heatmap, 20-second video. -/
theorem scoreSegments_bounds_witness :
    (0 ≤ (scoreSegment [] 20 ⟨2, 14, 12, 1/2, 3/4⟩).peakIntensity ∧
      (scoreSegment [] 20 ⟨2, 14, 12, 1/2, 3/4⟩).peakIntensity ≤ 100) ∧
    (0 ≤ (scoreSegment [] 20 ⟨2, 14, 12, 1/2, 3/4⟩).hookStrength ∧
      (scoreSegment [] 20 ⟨2, 14, 12, 1/2, 3/4⟩).hookStrength ≤ 100) ∧
    (0 ≤ (scoreSegment [] 20 ⟨2, 14, 12, 1/2, 3/4⟩).pacing ∧
      (scoreSegment [] 20 ⟨2, 14, 12, 1/2, 3/4⟩).pacing ≤ 100) ∧
    (0 ≤ (scoreSegment [] 20 ⟨2, 14, 12, 1/2, 3/4⟩).audioEnergy ∧
      (scoreSegment [] 20 ⟨2, 14, 12, 1/2, 3/4⟩).audioEnergy ≤ 100) ∧
    (0 ≤ (scoreSegment [] 20 ⟨2, 14, 12, 1/2, 3/4⟩).positionBonus ∧
      (scoreSegment [] 20 ⟨2, 14, 12, 1/2, 3/4⟩).positionBonus ≤ 100) ∧
    (0 ≤ (scoreSegment [] 20 ⟨2, 14, 12, 1/2, 3/4⟩).durationFit ∧
      (scoreSegment [] 20 ⟨2, 14, 12, 1/2, 3/4⟩).durationFit ≤ 100) ∧
    (0 ≤ (scoreSegment [] 20 ⟨2, 14, 12, 1/2, 3/4⟩).overall ∧
      (scoreSegment [] 20 ⟨2, 14, 12, 1/2, 3/4⟩).overall ≤ 100) ∧
    (∀ hm2 D2 seg2, ([] : List HeatmapPoint) = hm2 → (20:ℚ) = D2 →
      (⟨2, 14, 12, 1/2, 3/4⟩ : PeakSegment) = seg2 →
      scoreSegment [] 20 ⟨2, 14, 12, 1/2, 3/4⟩ = scoreSegment hm2 D2 seg2) ∧
    (∀ segs : List PeakSegment, (⟨2, 14, 12, 1/2, 3/4⟩ : PeakSegment) ∈ segs →
      scoreSegments segs [] 20 = segs.map (scoreSegment [] 20)) :=
  scoreSegments_bounds [] 20 ⟨2, 14, 12, 1/2, 3/4⟩
    (by intro p hp; simp at hp) (by norm_num) (by norm_num) (by norm_num)
    (by norm_num) (by norm_num) (by norm_num)


/-! ### Comment probe: normalization of the bucketed counts (part_006) -/

theorem le_foldr_max {c : ℕ} {l : List ℕ} (h : c ∈ l) : c ≤ l.foldr max 0 := by
  induction l with
  | nil => simp at h
  | cons a t ih =>
      rcases List.mem_cons.mp h with h1 | h1
      · rw [h1]
        exact le_max_left _ _
      · exact le_trans (ih h1) (le_max_right _ _)

theorem foldr_max_mem (l : List ℕ) (h : l.foldr max 0 ≠ 0) : l.foldr max 0 ∈ l := by
  induction l with
  | nil => simp at h
  | cons a t ih =>
      simp only [List.foldr] at h ⊢
      by_cases hc : t.foldr max 0 ≤ a
      · rw [max_eq_left hc]
        exact List.mem_cons_self _ _
      · have hlt := Nat.lt_of_not_le hc
        rw [max_eq_right (le_of_lt hlt)]
        exact List.mem_cons_of_mem _ (ih (by omega))

theorem le_maxCountOf {c : ℕ} {l : List ℕ} (h : c ∈ l) : c ≤ maxCountOf l :=
  le_foldr_max h

theorem maxCountOf_mem {l : List ℕ} (h : maxCountOf l ≠ 0) : maxCountOf l ∈ l :=
  foldr_max_mem l h

/-- Claim C9: the probe's non-empty heatmap has one point per 5-second
window of the video, its intensities are the per-window mention counts
(of the parsed timestamp tokens not beyond `duration + 5` s) divided by
the maximal count, so they all lie in `[0, 1]`, and one of them is
exactly `1`. -/
theorem commentHeatmap_spec (comments : List String) (videoDurationS : ℚ)
    (hne : commentHeatmap comments videoDurationS 5 ≠ []) :
    (commentHeatmap comments videoDurationS 5).length =
        (⌈videoDurationS / 5⌉).toNat ∧
      (∀ i (hi : i < (commentHeatmap comments videoDurationS 5).length),
        ((commentHeatmap comments videoDurationS 5).get ⟨i, hi⟩).startMs =
            (i : ℚ) * 5 * 1000 ∧
          ((commentHeatmap comments videoDurationS 5).get ⟨i, hi⟩).endMs =
            min (((i : ℚ) + 1) * 5 * 1000) (videoDurationS * 1000) ∧
          ((commentHeatmap comments videoDurationS 5).get ⟨i, hi⟩).intensity =
            (commentCountsAt (mentionMapOf comments videoDurationS 5) 5
                (⌈videoDurationS / 5⌉).toNat i : ℚ) /
              (maxCountOf ((List.range (⌈videoDurationS / 5⌉).toNat).map
                (commentCountsAt (mentionMapOf comments videoDurationS 5) 5
                  (⌈videoDurationS / 5⌉).toNat)) : ℚ) ∧
          0 ≤ ((commentHeatmap comments videoDurationS 5).get ⟨i, hi⟩).intensity ∧
          ((commentHeatmap comments videoDurationS 5).get ⟨i, hi⟩).intensity ≤ 1) ∧
      (∃ p ∈ commentHeatmap comments videoDurationS 5, p.intensity = 1) := by
  have hne2 := hne
  simp only [commentHeatmap] at hne2
  split_ifs at hne2 with h1 h2
  · exact absurd rfl hne2
  · exact absurd rfl hne2
  · have hEq : commentHeatmap comments videoDurationS 5 =
        (List.range (⌈videoDurationS / (5 : ℚ)⌉).toNat).map (fun (i : ℕ) =>
          { startMs := (i : ℚ) * 5 * 1000
            endMs := min (((i : ℚ) + 1) * 5 * 1000) (videoDurationS * 1000)
            intensity := (commentCountsAt (mentionMapOf comments videoDurationS 5) 5
                (⌈videoDurationS / (5 : ℚ)⌉).toNat i : ℚ) /
              ((maxCountOf ((List.range (⌈videoDurationS / (5 : ℚ)⌉).toNat).map
                (commentCountsAt (mentionMapOf comments videoDurationS 5) 5
                  (⌈videoDurationS / (5 : ℚ)⌉).toNat)) : ℕ) : ℚ) : HeatmapPoint }) := by
      simp only [commentHeatmap]
      rw [if_neg h1, if_neg h2]
      norm_cast
    simp only [Nat.cast_ofNat] at h2
    set nW := (⌈videoDurationS / (5 : ℚ)⌉).toNat with hnW
    set mm := mentionMapOf comments videoDurationS 5 with hmm
    set mc := maxCountOf ((List.range nW).map (commentCountsAt mm 5 nW)) with hmc
    have hmcpos : 0 < mc := Nat.pos_of_ne_zero h2
    refine ⟨?_, ?_, ?_⟩
    · rw [hEq, List.length_map, List.length_range]
    · rw [hEq]
      intro i hi
      have hilt : i < nW := by
        rw [List.length_map, List.length_range] at hi
        exact hi
      simp only [List.get_eq_getElem, List.getElem_map, List.getElem_range]
      have hcnt : commentCountsAt mm 5 nW i ≤ mc := by
        apply le_maxCountOf
        exact List.mem_map_of_mem _ (List.mem_range.mpr hilt)
      refine ⟨trivial, trivial, trivial, ?_, ?_⟩
      · apply div_nonneg ; exact_mod_cast Nat.zero_le _ ; exact_mod_cast Nat.zero_le _
      · show (commentCountsAt mm 5 nW i : ℚ) / (mc : ℚ) ≤ 1
        rw [div_le_one (by exact_mod_cast hmcpos)]
        exact_mod_cast hcnt
    · have hmcmem : mc ∈ List.map (commentCountsAt mm 5 nW) (List.range nW) :=
        maxCountOf_mem h2
      obtain ⟨j, hj, hjeq⟩ := List.mem_map.mp hmcmem
      refine ⟨{ startMs := (j : ℚ) * 5 * 1000
                endMs := min (((j : ℚ) + 1) * 5 * 1000) (videoDurationS * 1000)
                intensity := (commentCountsAt mm 5 nW j : ℚ) / (mc : ℚ) }, ?_, ?_⟩
      · rw [hEq]
        exact List.mem_map_of_mem _ hj
      · show (commentCountsAt mm 5 nW j : ℚ) / (mc : ℚ) = 1
        rw [hjeq]
        apply div_self
        exact_mod_cast h2

/-- Witness for C9 on the comment "0:05 nice" over a 7-second video: the
probe heatmap is non-empty and the theorem applies. -/
theorem commentHeatmap_spec_witness :
    (commentHeatmap ["0:05 nice"] 7 5).length = (⌈(7:ℚ) / 5⌉).toNat ∧
      (∀ i (hi : i < (commentHeatmap ["0:05 nice"] 7 5).length),
        ((commentHeatmap ["0:05 nice"] 7 5).get ⟨i, hi⟩).startMs = (i : ℚ) * 5 * 1000 ∧
          ((commentHeatmap ["0:05 nice"] 7 5).get ⟨i, hi⟩).endMs =
            min (((i : ℚ) + 1) * 5 * 1000) ((7:ℚ) * 1000) ∧
          ((commentHeatmap ["0:05 nice"] 7 5).get ⟨i, hi⟩).intensity =
            (commentCountsAt (mentionMapOf ["0:05 nice"] 7 5) 5
                (⌈(7:ℚ) / 5⌉).toNat i : ℚ) /
              (maxCountOf ((List.range (⌈(7:ℚ) / 5⌉).toNat).map
                (commentCountsAt (mentionMapOf ["0:05 nice"] 7 5) 5
                  (⌈(7:ℚ) / 5⌉).toNat)) : ℚ) ∧
          0 ≤ ((commentHeatmap ["0:05 nice"] 7 5).get ⟨i, hi⟩).intensity ∧
          ((commentHeatmap ["0:05 nice"] 7 5).get ⟨i, hi⟩).intensity ≤ 1) ∧
      (∃ p ∈ commentHeatmap ["0:05 nice"] 7 5, p.intensity = 1) :=
  commentHeatmap_spec ["0:05 nice"] 7 (by rw [exCommentHeatmap]; simp)


/-! ### Heatmap smoothing: frame effect and the moving-average window -/

/-- Generic shape of the `smoothWindow` accumulator: a fold of guarded
pair updates is the pair of the filtered sum and the filtered count. -/
theorem foldl_pair_filter (l : List ℕ) (P : ℕ → Prop) [DecidablePred P]
    (f : ℕ → ℚ) (a b : ℚ) :
    l.foldl (fun acc k => if P k then (acc.1 + f k, acc.2 + 1) else acc) (a, b) =
      (a + ((l.filter (fun k => decide (P k))).map f).sum,
        b + ((l.filter (fun k => decide (P k))).length : ℚ)) := by
  induction l generalizing a b with
  | nil => simp
  | cons c t ih =>
      by_cases hc : P c
      · rw [List.foldl_cons, if_pos hc, ih,
          List.filter_cons_of_pos (by simpa using hc)]
        simp only [List.map_cons, List.sum_cons, List.length_cons, Prod.mk.injEq]
        refine ⟨by ring, by push_cast; ring⟩
      · rw [List.foldl_cons, if_neg hc, ih,
          List.filter_cons_of_neg (by simpa using hc)]

/-- The indices averaged by `smoothWindow`: those within `halfWindow` of
`i` that exist in a list of length `n`. -/
def windowIndices (n halfWindow i : ℕ) : List ℕ :=
  (((List.range (2 * halfWindow + 1)).map (fun (k : ℕ) => (i : ℤ) - halfWindow + k)).filter
    (fun j => 0 ≤ j ∧ j < (n : ℤ))).map Int.toNat

/-- The mean of the intensities at a list of indices. -/
def meanIntensity (points : List HeatmapPoint) (idxs : List ℕ) : ℚ :=
  (idxs.map (fun j => (points.getD j default).intensity)).sum / (idxs.length : ℚ)

/-- `smoothWindow` returns the sum and the count of the intensities at
`windowIndices`. -/
theorem smoothWindow_eq (points : List HeatmapPoint) (h i : ℕ) :
    smoothWindow points h i =
      (((windowIndices points.length h i).map
          (fun j => (points.getD j default).intensity)).sum,
        ((windowIndices points.length h i).length : ℚ)) := by
  unfold smoothWindow windowIndices
  rw [foldl_pair_filter (List.range (2 * h + 1))
    (fun k => 0 ≤ (i : ℤ) - (h : ℤ) + (k : ℤ) ∧ (i : ℤ) - (h : ℤ) + (k : ℤ) < (points.length : ℤ))
    (fun k => (points.getD ((i : ℤ) - (h : ℤ) + (k : ℤ)).toNat default).intensity) 0 0]
  rw [List.filter_map, List.map_map, List.map_map, List.length_map]
  simp [Function.comp_def]

theorem windowIndices_length_le (n h i : ℕ) :
    (windowIndices n h i).length ≤ 2 * h + 1 := by
  unfold windowIndices
  rw [List.length_map]
  refine le_trans (List.length_filter_le _ _) ?_
  rw [List.length_map, List.length_range]

theorem windowIndices_near (n h i : ℕ) :
    ∀ j ∈ windowIndices n h i,
      j < n ∧ (i : ℤ) - (h : ℤ) ≤ (j : ℤ) ∧ (j : ℤ) ≤ (i : ℤ) + (h : ℤ) := by
  intro j hj
  unfold windowIndices at hj
  obtain ⟨j2, hj2, hje⟩ := List.mem_map.mp hj
  have hf := List.of_mem_filter hj2
  simp only [decide_eq_true_eq] at hf
  obtain ⟨k, hk, hke⟩ := List.mem_map.mp (List.mem_of_mem_filter hj2)
  have hklt : k < 2 * h + 1 := List.mem_range.mp hk
  have hjz : (j : ℤ) = j2 := by
    rw [← hje]
    exact Int.toNat_of_nonneg hf.1
  refine ⟨?_, ?_, ?_⟩
  · have := hf.2
    rw [← hjz] at this
    exact_mod_cast this
  · rw [hjz, ← hke]
    have : (0 : ℤ) ≤ (k : ℤ) := Int.ofNat_nonneg k
    linarith
  · rw [hjz, ← hke]
    have : (k : ℤ) ≤ 2 * (h : ℤ) := by exact_mod_cast Nat.lt_succ_iff.mp hklt
    linarith

/-- Claim C10 (amended): `smoothHeatmap` preserves the list length and the
`startMs`/`endMs` of every point, and replaces each intensity by the mean
of the intensities at the in-range indices within `⌊w / 2⌋` of the point,
which are at most `2⌊w / 2⌋ + 1` many (for even `w` this window can hold
`w + 1` points, not `w`). -/
theorem smoothHeatmap_frame (points : List HeatmapPoint) (w : ℕ) (hw : 1 ≤ w) :
    (smoothHeatmap points w).length = points.length ∧
    ∀ i (hi : i < (smoothHeatmap points w).length) (hi2 : i < points.length),
      ((smoothHeatmap points w).get ⟨i, hi⟩).startMs = (points.get ⟨i, hi2⟩).startMs ∧
      ((smoothHeatmap points w).get ⟨i, hi⟩).endMs = (points.get ⟨i, hi2⟩).endMs ∧
      ((smoothHeatmap points w).get ⟨i, hi⟩).intensity =
        meanIntensity points (windowIndices points.length (w / 2) i) ∧
      (windowIndices points.length (w / 2) i).length ≤ 2 * (w / 2) + 1 ∧
      (∀ j ∈ windowIndices points.length (w / 2) i,
        j < points.length ∧ (i : ℤ) - ((w / 2 : ℕ) : ℤ) ≤ (j : ℤ) ∧
          (j : ℤ) ≤ (i : ℤ) + ((w / 2 : ℕ) : ℤ)) := by
  constructor
  · simp only [smoothHeatmap]
    exact List.length_mapIdx
  · intro i hi hi2
    have hg : (smoothHeatmap points w).get ⟨i, hi⟩ =
        { points.get ⟨i, hi2⟩ with intensity :=
            (smoothWindow points (w / 2) i).1 / (smoothWindow points (w / 2) i).2 } := by
      simp only [smoothHeatmap, List.mapIdx_eq_enum_map, List.get_eq_getElem,
        List.getElem_map, List.getElem_enum, Function.uncurry]
    rw [hg]
    refine ⟨rfl, rfl, ?_, windowIndices_length_le _ _ _, windowIndices_near _ _ _⟩
    show (smoothWindow points (w / 2) i).1 / (smoothWindow points (w / 2) i).2 =
      meanIntensity points (windowIndices points.length (w / 2) i)
    rw [smoothWindow_eq]
    rfl

/-- Witness for C10 at the three-point heatmap and window size 2. -/
theorem smoothHeatmap_frame_witness :
    (smoothHeatmap [⟨0, 1, 0⟩, ⟨1, 2, 0⟩, ⟨2, 3, 1⟩] 2).length =
        ([⟨0, 1, 0⟩, ⟨1, 2, 0⟩, ⟨2, 3, 1⟩] : List HeatmapPoint).length ∧
    ∀ i (hi : i < (smoothHeatmap [⟨0, 1, 0⟩, ⟨1, 2, 0⟩, ⟨2, 3, 1⟩] 2).length)
        (hi2 : i < ([⟨0, 1, 0⟩, ⟨1, 2, 0⟩, ⟨2, 3, 1⟩] : List HeatmapPoint).length),
      ((smoothHeatmap [⟨0, 1, 0⟩, ⟨1, 2, 0⟩, ⟨2, 3, 1⟩] 2).get ⟨i, hi⟩).startMs =
          (([⟨0, 1, 0⟩, ⟨1, 2, 0⟩, ⟨2, 3, 1⟩] : List HeatmapPoint).get ⟨i, hi2⟩).startMs ∧
      ((smoothHeatmap [⟨0, 1, 0⟩, ⟨1, 2, 0⟩, ⟨2, 3, 1⟩] 2).get ⟨i, hi⟩).endMs =
          (([⟨0, 1, 0⟩, ⟨1, 2, 0⟩, ⟨2, 3, 1⟩] : List HeatmapPoint).get ⟨i, hi2⟩).endMs ∧
      ((smoothHeatmap [⟨0, 1, 0⟩, ⟨1, 2, 0⟩, ⟨2, 3, 1⟩] 2).get ⟨i, hi⟩).intensity =
        meanIntensity [⟨0, 1, 0⟩, ⟨1, 2, 0⟩, ⟨2, 3, 1⟩]
          (windowIndices ([⟨0, 1, 0⟩, ⟨1, 2, 0⟩, ⟨2, 3, 1⟩] :
            List HeatmapPoint).length (2 / 2) i) ∧
      (windowIndices ([⟨0, 1, 0⟩, ⟨1, 2, 0⟩, ⟨2, 3, 1⟩] :
          List HeatmapPoint).length (2 / 2) i).length ≤ 2 * (2 / 2) + 1 ∧
      (∀ j ∈ windowIndices ([⟨0, 1, 0⟩, ⟨1, 2, 0⟩, ⟨2, 3, 1⟩] :
          List HeatmapPoint).length (2 / 2) i,
        j < ([⟨0, 1, 0⟩, ⟨1, 2, 0⟩, ⟨2, 3, 1⟩] : List HeatmapPoint).length ∧
          (i : ℤ) - ((2 / 2 : ℕ) : ℤ) ≤ (j : ℤ) ∧
          (j : ℤ) ≤ (i : ℤ) + ((2 / 2 : ℕ) : ℤ)) :=
  smoothHeatmap_frame [⟨0, 1, 0⟩, ⟨1, 2, 0⟩, ⟨2, 3, 1⟩] 2 (by norm_num)

/-- Claim C10 as stated is refuted: with window size 2 on a three-point
heatmap the middle output intensity is 1/3, the mean of all three input
intensities 0, 0, 1 — it is not the mean of any at-most-2 of them. -/
theorem smoothHeatmap_mean_cex :
    (smoothHeatmap [⟨0, 1, 0⟩, ⟨1, 2, 0⟩, ⟨2, 3, 1⟩] 2).map (fun p => p.intensity) =
      [0, 1/3, 1/2] ∧
    (∀ x ∈ [(0:ℚ), 0, 1], ¬ x = 1/3) ∧
    (∀ x ∈ [(0:ℚ), 0, 1], ∀ y ∈ [(0:ℚ), 0, 1], ¬ (x + y) / 2 = 1/3) := by
  refine ⟨?_, ?_, ?_⟩
  · rw [exSmooth]
    rfl
  · intro x hx
    fin_cases hx <;> norm_num
  · intro x hx y hy
    fin_cases hx <;> fin_cases hy <;> norm_num

end YSC
